import Mathlib

/-!
# oc-utils: scaling deployments and restarting aged pods

A shallow embedding of `main.go`, `scale.go` and `restart.go`.

The program talks to an OpenShift server.  Everything outside the program is
gathered in a `World`: which URLs `http.NewRequest` accepts, what `client.Do`
answers to a request (given the requests made before it), and what `time.Now()`
reads at its successive calls.  A run of a function is the list of requests it
issued, the messages it printed and the way it ended.

Go's `int` is taken to be 64 bits wide (two's complement, wrapping), `float64`
arithmetic is IEEE binary64 with round-to-nearest-even, a `time.Time` is an
integer number of nanoseconds, and a `time.Duration` is a 64 bit count of
nanoseconds.
-/

namespace OcUtils

/-! ## Machine integers -/

/-- Smallest value of Go's `int` on a 64 bit platform. -/
def minInt : Int := -9223372036854775808

/-- Largest value of Go's `int` on a 64 bit platform. -/
def maxInt : Int := 9223372036854775807

/-- Reduction of an integer into the range of `int` (two's complement wrap-around),
as Go's `+`, `-`, `++` and `--` do on overflow. -/
def wrapInt (x : Int) : Int := (x + 9223372036854775808) % 18446744073709551616 - 9223372036854775808

/-! ## float64

A finite binary64 number is `m * 2 ^ e` with `|m| ≤ 2 ^ 53`.  The operations
compute the exact result as such a pair and round its significand to 53 bits,
ties to even.  The exponent is not bounded here: every value this program
computes has a magnitude between `2 ^ (-42)` and `2 ^ 68` (or is zero), far
inside binary64's normal range, so no overflow, underflow or subnormal occurs.
Division by zero (an infinity or NaN in Go) does not occur either: the only
divisor is the constant `60*60*1e9`; `F64.div` returns zero there. -/

/-- A finite float64 value `m * 2 ^ e`. -/
structure F64 where
  m : Int
  e : Int
deriving DecidableEq, Repr

/-- Number of binary digits of `n` (`fuel` bounds the recursion; `fuel = n` is enough). -/
def bitLen : Nat → Nat → Nat
  | 0, _ => 0
  | fuel + 1, n => if n = 0 then 0 else bitLen fuel (n / 2) + 1

/-- Integer nearest to `n / 2 ^ k`, ties to the even one. -/
def roundHalfEven (n k : Nat) : Nat :=
  let q := n / 2 ^ k
  let r := n % 2 ^ k
  if 2 * r < 2 ^ k then q
  else if 2 ^ k < 2 * r then q + 1
  else if q % 2 = 0 then q else q + 1

namespace F64

/-- Rounding of the exact value `m * 2 ^ e` to 53 significant bits, ties to even. -/
def round (m e : Int) : F64 :=
  let n := m.natAbs
  let k := bitLen n n - 53
  ⟨m.sign * (roundHalfEven n k : Nat), e + (k : Nat)⟩

/-- Conversion `float64(i)` of an integer. -/
def ofInt (i : Int) : F64 := round i 0

/-- Product `a * b` in float64. -/
def mul (a b : F64) : F64 := round (a.m * b.m) (a.e + b.e)

/-- Sum `a + b` in float64. -/
def add (a b : F64) : F64 :=
  let e := min a.e b.e
  round (a.m * 2 ^ (a.e - e).toNat + b.m * 2 ^ (b.e - e).toNat) e

/-- Quotient `a / b` in float64.  The quotient of the significands is computed with
at least two bits more than the 53 to keep, the lowest of them telling whether the
division left a remainder, and then rounded. -/
def div (a b : F64) : F64 :=
  if a.m = 0 ∨ b.m = 0 then ⟨0, 0⟩
  else
    let na := a.m.natAbs
    let nb := b.m.natAbs
    let t := 55 + bitLen nb nb
    let q := (na * 2 ^ t) / nb
    let sticky := if (na * 2 ^ t) % nb = 0 then 0 else 1
    round (a.m.sign * b.m.sign * ((2 * q + sticky : Nat) : Int)) (a.e - b.e - (t : Nat) - 1)

/-- Comparison `a < b` of two float64 values. -/
def lt (a b : F64) : Bool :=
  let e := min a.e b.e
  decide (a.m * 2 ^ (a.e - e).toNat < b.m * 2 ^ (b.e - e).toNat)

end F64

/-! ## time -/

/-- A `time.Time`: nanoseconds since a fixed instant. -/
abbrev Time := Int

/-- A `time.Duration`: a 64 bit count of nanoseconds. -/
abbrev Duration := Int

/-- Constant `time.Hour`, in nanoseconds. -/
def Hour : Duration := 3600000000000

/-- Largest `time.Duration`. -/
def maxDuration : Duration := 9223372036854775807

/-- Smallest `time.Duration`. -/
def minDuration : Duration := -9223372036854775808

/-- Method `t.Sub(u)`: the duration `t - u`, replaced by the largest or smallest
duration when it does not fit. -/
def Time.Sub (t u : Time) : Duration :=
  if t - u > maxDuration then maxDuration
  else if t - u < minDuration then minDuration
  else t - u

/-- Method `d.Hours()` of `time.Duration`:
`hour := d / Hour; nsec := d % Hour; float64(hour) + float64(nsec)/(60*60*1e9)`. -/
def Duration.Hours (d : Duration) : F64 :=
  let hour := Int.tdiv d Hour
  let nsec := Int.tmod d Hour
  F64.add (F64.ofInt hour) (F64.div (F64.ofInt nsec) (F64.ofInt (60 * 60 * 1000000000)))

/-! ## Strings -/

/-- Rendering of one `%` directive of `fmt.Sprintf` whose verb is `verb`, given the
operands left.  Only the verb `s` is modelled (the program uses no other with
string operands); any other verb is rendered as Go renders a verb that does not
fit a string operand. -/
def formatVerb (verb : Char) : List String → List Char × List String
  | [] => (['%', '!', verb] ++ "(MISSING)".data, [])
  | arg :: args =>
    if verb = 's' then (arg.data, args)
    else (['%', '!', verb] ++ "(string=".data ++ arg.data ++ [')'], args)

/-- Text `fmt.Sprintf` appends when operands are left over. -/
def formatExtra : List String → List Char
  | [] => []
  | arg :: args =>
    "%!(EXTRA ".data ++ "string=".data ++ arg.data ++
      (args.map fun a => ", string=".data ++ a.data).flatten ++ [')']

/-- Scan of the format of `fmt.Sprintf` over string operands. -/
def sprintfAux : List Char → List String → List Char
  | [], args => formatExtra args
  | ['%'], args => "%!(NOVERB)".data ++ formatExtra args
  | '%' :: '%' :: rest, args => '%' :: sprintfAux rest args
  | '%' :: verb :: rest, args =>
    (formatVerb verb args).1 ++ sprintfAux rest (formatVerb verb args).2
  | c :: rest, args => c :: sprintfAux rest args

/-- Function `fmt.Sprintf(format, args...)` for string operands and formats made of
plain text, `%s` and `%%` (flags, widths and the other verbs are not modelled:
the formats of this program are built from the two base URL constants of `main`). -/
def Sprintf (format : String) (args : List String) : String :=
  ⟨sprintfAux format.data args⟩

/-- Predicate `unicode.IsSpace`: the code points with the Unicode property White_Space. -/
def isSpace (c : Char) : Bool :=
  let n := c.toNat
  (9 ≤ n && n ≤ 13) || n = 32 || n = 133 || n = 160 || n = 5760 ||
    (8192 ≤ n && n ≤ 8202) || n = 8232 || n = 8233 || n = 8239 || n = 8287 || n = 12288

/-- Function `strings.TrimSpace`: `TrimRightFunc(TrimLeftFunc(s, unicode.IsSpace), unicode.IsSpace)`. -/
def TrimSpace (s : String) : String :=
  ⟨(s.data.dropWhile isSpace).rdropWhile isSpace⟩

/-! ## JSON payloads

Only the fields of a deployment configuration and of a pod that the program reads
are kept (`metadata.name`, `status.startTime`); the scale resource, which is sent
back to the server, is kept whole. -/

/-- Field `metadata` of `ScaleStruct`. -/
structure ScaleMetadata where
  Name : String
  Namespace : String
  SelfLink : String
  UID : String
  ResourceVersion : String
  CreationTimestamp : Time
deriving DecidableEq, Repr

/-- Field `spec` of `ScaleStruct`. -/
structure ScaleSpec where
  Replicas : Int
deriving DecidableEq, Repr

/-- Field `status.selector` of `ScaleStruct`. -/
structure ScaleSelector where
  App : String
  Deploymentconfig : String
deriving DecidableEq, Repr

/-- Field `status` of `ScaleStruct`. -/
structure ScaleStatus where
  Replicas : Int
  Selector : ScaleSelector
  TargetSelector : String
deriving DecidableEq, Repr

/-- ScaleStruct - json payload for scale resource returned by Openshift rest api. -/
structure ScaleStruct where
  Kind : String
  APIVersion : String
  Metadata : ScaleMetadata
  Spec : ScaleSpec
  Status : ScaleStatus
deriving DecidableEq, Repr

/-- Field `metadata` of `DeploymentConfig` (the fields read by the program). -/
structure DeploymentMetadata where
  Name : String
deriving DecidableEq, Repr

/-- DeploymentConfig - json payload for single deploymentconfig. -/
structure DeploymentConfig where
  Metadata : DeploymentMetadata
deriving DecidableEq, Repr

/-- DeploymentConfigList - json payload for all deploymentconfigs. -/
structure DeploymentConfigList where
  Items : List DeploymentConfig
deriving DecidableEq, Repr

/-- Field `metadata` of `Pod` (the fields read by the program). -/
structure PodMetadata where
  Name : String
deriving DecidableEq, Repr

/-- Field `status` of `Pod` (the fields read by the program). -/
structure PodStatus where
  StartTime : Time
deriving DecidableEq, Repr

/-- Pod - json payload for single pod. -/
structure Pod where
  Metadata : PodMetadata
  Status : PodStatus
deriving DecidableEq, Repr

/-- PodList - json payload for all pods. -/
structure PodList where
  Items : List Pod
deriving DecidableEq, Repr

/-- Outcome of `json.Unmarshal(body, &v)` on a fresh `v`: the value left in `v`
(filled as far as decoding went: a field of the wrong JSON type is skipped and
reported, the rest is still decoded) and whether an error was returned. -/
structure Decoded (α : Type) where
  value : α
  err : Bool
deriving DecidableEq, Repr

/-! ## HTTP -/

/-- A request handed to `client.Do`: method, URL as given to `http.NewRequest`,
headers added, and the payload marshalled into the body, if any. -/
structure Request where
  method : String
  url : String
  header : List (String × String)
  body : Option ScaleStruct
deriving DecidableEq, Repr

/-- Body of a response: whether `ioutil.ReadAll` fails on it, and what
`json.Unmarshal` makes of its bytes for each of the three target types. -/
structure Body where
  readErr : Bool
  deploymentList : Decoded DeploymentConfigList
  scale : Decoded ScaleStruct
  podList : Decoded PodList
deriving DecidableEq, Repr

/-- A non-nil `*http.Response`. -/
structure Response where
  StatusCode : Int
  Body : Body
deriving DecidableEq, Repr

/-- Result `(resp, err)` of `client.Do`: `resp = none` is the nil response. -/
structure DoResult where
  resp : Option Response
  err : Bool
deriving DecidableEq, Repr

/-- Everything outside the program. -/
structure World where
  /-- Whether `http.NewRequest` accepts the URL (it returns a nil request otherwise). -/
  validURL : String → Bool
  /-- What `client.Do` returns for a request, given the requests issued before it. -/
  send : List Request → Request → DoResult
  /-- What the `i`-th call of `time.Now()` returns. -/
  now : Nat → Time

/-! ## Runs -/

/-- What the program prints; each message stands for one print statement of the source. -/
inductive Msg where
  /-- Message of `log.Fatal`. -/
  | fatal
  /-- The two lines "You need to login to OpenShift before running this!" and "Use command ...". -/
  | loginHelp
  /-- Line "There was an error:" followed by the decoding error. -/
  | decodeError
  /-- Line "There are no deployments on %s namespace, it is either empty or doesn't exist." -/
  | noDeployments (ns : String)
  /-- Line "Scaling pods on %s namespace". -/
  | scalingPods (ns : String)
  /-- Line "Scaling deployment %s from %d -> %d". -/
  | scalingDeployment (name : String) (old new : Int)
  /-- Line "Successfully scaled pods." -/
  | scaled
  /-- Line "There are no pods on %s namespace." -/
  | noPods (ns : String)
  /-- Line "Restarting pod %s". -/
  | restartingPod (name : String)
  /-- Line "None of the pods on %s namespace are older than %d days". -/
  | noneOlder (ns : String) (threshold : Int)
  /-- Line "Successfully restarted %d pods on %s namespace". -/
  | restarted (count : Int) (ns : String)
deriving DecidableEq, Repr

/-- How a function (or the program) ends. -/
inductive Exit where
  /-- The function returns to its caller. -/
  | returned
  /-- The process exits with status 1 (`os.Exit(1)` or `log.Fatal`). -/
  | exit1
  /-- A nil pointer is dereferenced: the process panics. -/
  | panic
deriving DecidableEq, Repr

/-- A run: the requests issued in order, the messages printed in order, the end. -/
structure Run where
  trace : List Request
  out : List Msg
  exit : Exit
deriving DecidableEq, Repr

/-- The run that first issues `reqs` and prints `msgs`, then goes on as `r`. -/
def Run.after (reqs : List Request) (msgs : List Msg) (r : Run) : Run :=
  ⟨reqs ++ r.trace, msgs ++ r.out, r.exit⟩

/-- The run `r` followed, when `r` returns, by the printing of `msgs`. -/
def Run.thenPrint (r : Run) (msgs : List Msg) : Run :=
  if r.exit = Exit.returned then ⟨r.trace, r.out ++ msgs, Exit.returned⟩ else r

/-- A request as the program builds it: `http.NewRequest(method, url, body)` followed
by `req.Header.Add("Authorization", "Bearer "+token)`. -/
def newRequest (method url token : String) (body : Option ScaleStruct) : Request :=
  ⟨method, url, [("Authorization", "Bearer " ++ token)], body⟩

/-! ## scale.go -/

/-- URL of the deployment configurations of a namespace, as `getDeployments` builds it. -/
def deploymentsURL (baseURL ns : String) : String :=
  Sprintf (baseURL ++ "/oapi/v1/namespaces/%s/deploymentconfigs") [ns]

/-- URL of the scale resource of a deployment configuration, as `scalePods` builds it. -/
def scaleURL (baseURL ns deploymentName : String) : String :=
  Sprintf (baseURL ++ "/oapi/v1/namespaces/%s/deploymentconfigs/%s/scale") [ns, deploymentName]

/-- The adjustment of `scale.Spec.Replicas` in `scalePods` (source lines 272-281):
the new count, or `none` when the iteration is abandoned by `continue`
("Already zero replicas - can't scale below zero"). -/
def adjustReplicas (command : String) (replicas : Int) : Option Int :=
  if command = "scale-up" then some (wrapInt (replicas + 1))
  else if replicas = 0 then none
  else some (wrapInt (replicas - 1))

/-- The replica count of a deployment once `scalePods` has processed it: the count
put to the server, or the count fetched when no `PUT` is made. -/
def replicasAfter (command : String) (replicas : Int) : Int :=
  (adjustReplicas command replicas).getD replicas

/-- The `PUT` half of one iteration of the loop of `scalePods` (source lines 283-290),
followed by the rest of the loop `next`, which receives the requests issued so far. -/
def putScale (w : World) (hist : List Request) (url token : String) (scale : ScaleStruct)
    (next : List Request → Run) : Run :=
  let req := newRequest "PUT" url token (some scale)
  match (w.send hist req).resp with
  | none => ⟨[req], [], Exit.panic⟩
  | some resp =>
    if resp.Body.readErr then ⟨[req], [Msg.fatal], Exit.exit1⟩
    else Run.after [req] [] (next (hist ++ [req]))

/-- The loop of `scalePods` over the deployment names still to process; `hist` holds
the requests issued before. -/
def scalePodsLoop (w : World) (ns token command baseURL : String) :
    List Request → List String → Run
  | _, [] => ⟨[], [], Exit.returned⟩
  | hist, deploymentName :: rest =>
    let url := scaleURL baseURL ns deploymentName
    if w.validURL url = false then ⟨[], [], Exit.panic⟩
    else
      let req := newRequest "GET" url token none
      match (w.send hist req).resp with
      | none => ⟨[req], [], Exit.panic⟩
      | some resp =>
        if resp.Body.readErr then ⟨[req], [Msg.fatal], Exit.exit1⟩
        else
          let scale := resp.Body.scale.value
          let errOut := if resp.Body.scale.err then [Msg.decodeError] else []
          match adjustReplicas command scale.Spec.Replicas with
          | none =>
            Run.after [req] errOut (scalePodsLoop w ns token command baseURL (hist ++ [req]) rest)
          | some replicas =>
            Run.after [req]
              (errOut ++ [Msg.scalingDeployment deploymentName scale.Spec.Replicas replicas])
              (putScale w (hist ++ [req]) url token { scale with Spec := ⟨replicas⟩ }
                (fun h => scalePodsLoop w ns token command baseURL h rest))

/-- Function `scalePods`; `hist` holds the requests issued before the call. -/
def scalePods (w : World) (hist : List Request) (deployNames : List String)
    (ns token command baseURL : String) : Run :=
  Run.after [] [Msg.scalingPods ns] (scalePodsLoop w ns token command baseURL hist deployNames)

/-- Function `getDeployments`. -/
def getDeployments (w : World) (ns token command baseURL : String) : Run :=
  let url := deploymentsURL baseURL ns
  if w.validURL url = false then ⟨[], [], Exit.panic⟩
  else
    let req := newRequest "GET" url token none
    let res := w.send [] req
    if res.err then ⟨[req], [Msg.fatal], Exit.exit1⟩
    else
      match res.resp with
      | none => ⟨[req], [Msg.fatal], Exit.exit1⟩
      | some resp =>
        if resp.StatusCode = 401 then ⟨[req], [Msg.loginHelp], Exit.exit1⟩
        else if resp.Body.readErr then ⟨[req], [Msg.fatal], Exit.exit1⟩
        else
          let deploymentList := resp.Body.deploymentList.value
          let errOut := if resp.Body.deploymentList.err then [Msg.decodeError] else []
          if deploymentList.Items.length = 0 then
            ⟨[req], errOut ++ [Msg.noDeployments ns], Exit.returned⟩
          else
            let names := deploymentList.Items.map fun deployment => deployment.Metadata.Name
            Run.after [req] errOut
              ((scalePods w [req] names ns token command baseURL).thenPrint [Msg.scaled])

/-! ## restart.go -/

/-- URL of the pods of a namespace, as `restartOldPods` builds it. -/
def podsURL (baseURL ns : String) : String :=
  Sprintf (baseURL ++ "/api/v1/namespaces/%s/pods") [ns]

/-- URL of one pod, `deleteURL := url + "/" + pod.Metadata.Name`. -/
def deleteURL (url podName : String) : String :=
  url ++ "/" ++ podName

/-- Value `thresholdHours := float64(threshold) * 24.0`. -/
def thresholdHours (threshold : Int) : F64 :=
  F64.mul (F64.ofInt threshold) (F64.ofInt 24)

/-- The test `diff > thresholdHours` of `restartOldPods` for a pod started at `start`,
`now` being what `time.Now()` returns. -/
def isOld (now start : Time) (threshold : Int) : Bool :=
  F64.lt (thresholdHours threshold) (Duration.Hours (Time.Sub now start))

/-- The loop of `restartOldPods` over the pods still to visit.  `hist` holds the
requests issued before, `i` counts the calls of `time.Now()` made before and
`restartCount` is the counter of the source (it never exceeds the length of the
list, so `restartCount++` does not overflow).  The result pairs the run of the loop
with the final `restartCount`. -/
def restartLoop (w : World) (token url : String) (threshold : Int) :
    List Request → Nat → Int → List Pod → Run × Int
  | _, _, restartCount, [] => (⟨[], [], Exit.returned⟩, restartCount)
  | hist, i, restartCount, pod :: rest =>
    if isOld (w.now i) pod.Status.StartTime threshold then
      if w.validURL (deleteURL url pod.Metadata.Name) = false then
        (⟨[], [], Exit.panic⟩, restartCount)
      else
        let req := newRequest "DELETE" (deleteURL url pod.Metadata.Name) token none
        match (w.send hist req).resp with
        | none => (⟨[req], [], Exit.panic⟩, restartCount)
        | some resp =>
          if resp.Body.readErr then (⟨[req], [Msg.fatal], Exit.exit1⟩, restartCount)
          else
            let r := restartLoop w token url threshold (hist ++ [req]) (i + 1)
              (restartCount + 1) rest
            (Run.after [req] [Msg.restartingPod pod.Metadata.Name] r.1, r.2)
    else restartLoop w token url threshold hist (i + 1) restartCount rest

/-- Function `restartOldPods`. -/
def restartOldPods (w : World) (ns token : String) (threshold : Int) (baseURL : String) : Run :=
  let url := podsURL baseURL ns
  if w.validURL url = false then ⟨[], [], Exit.panic⟩
  else
    let req := newRequest "GET" url token none
    let res := w.send [] req
    if res.err then ⟨[req], [Msg.fatal], Exit.exit1⟩
    else
      match res.resp with
      | none => ⟨[req], [Msg.fatal], Exit.exit1⟩
      | some resp =>
        if resp.StatusCode = 401 then ⟨[req], [Msg.loginHelp], Exit.exit1⟩
        else if resp.Body.readErr then ⟨[req], [Msg.fatal], Exit.exit1⟩
        else
          let podList := resp.Body.podList.value
          let errOut := if resp.Body.podList.err then [Msg.decodeError] else []
          if podList.Items.length = 0 then ⟨[req], errOut ++ [Msg.noPods ns], Exit.returned⟩
          else
            let r := restartLoop w token url threshold [req] 0 0 podList.Items
            Run.after [req] errOut
              (r.1.thenPrint
                [if r.2 = 0 then Msg.noneOlder ns threshold else Msg.restarted r.2 ns])

/-! ## main.go -/

/-- The base URL `main` selects: the production cluster with `--prod`, the
non-production one otherwise. -/
def baseURLOf (prod : Bool) : String :=
  if prod then "https://ose.mlcinsurance.com.au:8443"
  else "https://osenp.mlcinsurance.com.au:8443"

/-- The command selected on the command line, with its arguments, as parsed by kingpin. -/
inductive Command where
  /-- Command `scaleup <namespace>`. -/
  | scaleup (namespaceUp : String)
  /-- Command `scaledown <namespace>`. -/
  | scaledown (namespaceDown : String)
  /-- Command `restartpods <namespace> <threshold>`. -/
  | restartPods (namespaceRestart : String) (threshold : Int)
deriving DecidableEq, Repr

/-- Function `main`.  `out` is the output of `oc whoami -t` (`none` when the command
fails), `prod` the flag `--prod` and `argsParse` the parsed command. -/
def main (w : World) (out : Option String) (prod : Bool) (argsParse : Command) : Run :=
  match out with
  | none => ⟨[], [Msg.loginHelp], Exit.exit1⟩
  | some out =>
    let token := TrimSpace out
    let baseURL := baseURLOf prod
    match argsParse with
    | Command.scaleup namespaceUp => getDeployments w namespaceUp token "scale-up" baseURL
    | Command.scaledown namespaceDown => getDeployments w namespaceDown token "scale-down" baseURL
    | Command.restartPods namespaceRestart threshold =>
      restartOldPods w namespaceRestart token threshold baseURL

/-- A world in which every URL the program builds is accepted by `http.NewRequest`
and every request is answered by a response whose body can be read. -/
def World.Responsive (w : World) : Prop :=
  (∀ url, w.validURL url = true) ∧
    ∀ hist req, ∃ resp, (w.send hist req).resp = some resp ∧ resp.Body.readErr = false

/-- The messages one iteration of the loop of `scalePods` prints before any `PUT`. -/
def decodeMsgs (err : Bool) : List Msg := if err then [Msg.decodeError] else []

/-- The pods of the list that pass the age test of `restartOldPods`, in list order,
each tested against what `time.Now()` returns in its own iteration (the pod at
position `j` of the list at the call number `i + j`). -/
def oldPods (w : World) (threshold : Int) (i : Nat) (pods : List Pod) : List Pod :=
  ((pods.enumFrom i).filter fun jp => isOld (w.now jp.1) jp.2.Status.StartTime threshold).map
    Prod.snd

/-- The `DELETE` request of `restartOldPods` for a pod; `url` is the URL of the pod list. -/
def deleteRequest (url token : String) (pod : Pod) : Request :=
  newRequest "DELETE" (deleteURL url pod.Metadata.Name) token none

/-- The number a float64 value stands for. -/
def F64.val (x : F64) : ℚ := (x.m : ℚ) * (2 : ℚ) ^ x.e

/-- The ways the list request of `getDeployments` and of `restartOldPods` fails before
its payload is decoded: `client.Do` returns an error, the response is nil, its status
is 401, or its body cannot be read. -/
def ListFails (res : DoResult) : Prop :=
  res.err = true ∨ res.resp = none ∨
    ∃ resp, res.resp = some resp ∧ (resp.StatusCode = 401 ∨ resp.Body.readErr = true)

/-- The scale resource with all fields empty but the two replica counts. -/
def scaleOf (replicas : Int) : ScaleStruct :=
  ⟨"", "", ⟨"", "", "", "", "", 0⟩, ⟨replicas⟩, ⟨replicas, ⟨"", ""⟩, ""⟩⟩

/-- A readable body whose decoding gives the deployment names `names`, the scale
resource `scaleOf replicas` and the pods `pods`, with the decoding error `err`. -/
def bodyOf (names : List String) (replicas : Int) (pods : List Pod) (err : Bool) : Body :=
  ⟨false, ⟨⟨names.map fun n => ⟨⟨n⟩⟩⟩, err⟩, ⟨scaleOf replicas, err⟩, ⟨⟨pods⟩, err⟩⟩

/-- A server that answers every request with status 200 and the same body, every
URL being well-formed and the clock standing still at `now`. -/
def constWorld (body : Body) (now : Time) : World :=
  ⟨fun _ => true, fun _ _ => ⟨some ⟨200, body⟩, false⟩, fun _ => now⟩

/-- A server that cannot be reached: `client.Do` returns an error and a nil response. -/
def deadWorld : World :=
  ⟨fun _ => true, fun _ _ => ⟨none, true⟩, fun _ => 0⟩

/-- A server that answers every request with status 200 and a readable body whose
scale resource holds `replicas url` replicas, `url` being the URL of the request. -/
def urlWorld (replicas : String → Int) : World :=
  ⟨fun _ => true, fun _ req => ⟨some ⟨200, bodyOf [] (replicas req.url) [] false⟩, false⟩,
    fun _ => 0⟩

/-- A server that answers with status 200 and the body `body`, but for the list of
deployment configurations, which it answers with the status 401. -/
def pickyWorld (body : Body) : World :=
  ⟨fun _ => true,
    fun _ req =>
      if req.url = "https://osenp.mlcinsurance.com.au:8443/oapi/v1/namespaces/ns/deploymentconfigs"
      then ⟨some ⟨401, body⟩, false⟩ else ⟨some ⟨200, body⟩, false⟩,
    fun _ => 0⟩

/-! # Theorems -/

set_option maxRecDepth 100000

/-! ## Machine integers -/

theorem wrapInt_of_range (x : Int) (h1 : minInt ≤ x) (h2 : x ≤ maxInt) : wrapInt x = x := by
  unfold wrapInt; unfold minInt at h1; unfold maxInt at h2; omega

/-! ## Requests and their headers -/

theorem putScale_forall (P : Request → Prop) (w : World) (hist : List Request)
    (url token : String) (scale : ScaleStruct) (next : List Request → Run)
    (hP : ∀ m u b, P (newRequest m u token b)) (hnext : ∀ h, ∀ q ∈ (next h).trace, P q) :
    ∀ q ∈ (putScale w hist url token scale next).trace, P q := by
  intro q hq
  unfold putScale at hq
  simp only at hq
  split at hq
  · simp at hq; subst hq; exact hP _ _ _
  · split at hq
    · simp at hq; subst hq; exact hP _ _ _
    · simp [Run.after] at hq
      rcases hq with hq | hq
      · subst hq; exact hP _ _ _
      · exact hnext _ _ hq

theorem scalePodsLoop_forall (P : Request → Prop) (w : World) (ns token command baseURL : String)
    (hP : ∀ m u b, P (newRequest m u token b)) (names : List String) :
    ∀ hist, ∀ q ∈ (scalePodsLoop w ns token command baseURL hist names).trace, P q := by
  induction names with
  | nil => intro hist q hq; simp [scalePodsLoop] at hq
  | cons name rest ih =>
    intro hist q hq
    rw [scalePodsLoop] at hq
    simp only at hq
    split at hq
    · simp at hq
    · split at hq
      · simp at hq; subst hq; exact hP _ _ _
      · split at hq
        · simp at hq; subst hq; exact hP _ _ _
        · split at hq
          · simp [Run.after] at hq
            rcases hq with hq | hq
            · subst hq; exact hP _ _ _
            · exact ih _ _ hq
          · simp only [Run.after, List.singleton_append, List.mem_cons] at hq
            rcases hq with hq | hq
            · subst hq; exact hP _ _ _
            · exact putScale_forall P w _ _ _ _ _ hP (fun h => ih h) q hq

theorem restartLoop_forall (P : Request → Prop) (w : World) (token url : String) (threshold : Int)
    (hP : ∀ m u b, P (newRequest m u token b)) (pods : List Pod) :
    ∀ hist i c, ∀ q ∈ (restartLoop w token url threshold hist i c pods).1.trace, P q := by
  induction pods with
  | nil => intro hist i c q hq; simp [restartLoop] at hq
  | cons pod rest ih =>
    intro hist i c q hq
    rw [restartLoop] at hq
    split at hq
    · split at hq
      · simp at hq
      · simp only at hq
        split at hq
        · simp at hq; subst hq; exact hP _ _ _
        · split at hq
          · simp at hq; subst hq; exact hP _ _ _
          · simp [Run.after] at hq
            rcases hq with hq | hq
            · subst hq; exact hP _ _ _
            · exact ih _ _ _ _ hq
    · exact ih _ _ _ _ hq

theorem Run.after_trace (reqs : List Request) (msgs : List Msg) (r : Run) :
    (Run.after reqs msgs r).trace = reqs ++ r.trace := rfl

theorem Run.after_exit (reqs : List Request) (msgs : List Msg) (r : Run) :
    (Run.after reqs msgs r).exit = r.exit := rfl

theorem Run.thenPrint_trace (r : Run) (msgs : List Msg) : (r.thenPrint msgs).trace = r.trace := by
  unfold Run.thenPrint; split <;> rfl

theorem scalePods_forall (P : Request → Prop) (w : World) (ns token command baseURL : String)
    (hP : ∀ m u b, P (newRequest m u token b)) (names : List String) (hist : List Request) :
    ∀ q ∈ (scalePods w hist names ns token command baseURL).trace, P q := by
  intro q hq
  simp only [scalePods, Run.after_trace, List.nil_append] at hq
  exact scalePodsLoop_forall P w ns token command baseURL hP _ _ q hq

theorem getDeployments_forall (P : Request → Prop) (w : World) (ns token command baseURL : String)
    (hP : ∀ m u b, P (newRequest m u token b)) :
    ∀ q ∈ (getDeployments w ns token command baseURL).trace, P q := by
  intro q hq
  unfold getDeployments at hq
  simp only at hq
  split at hq
  · simp at hq
  · split at hq
    · simp at hq; subst hq; exact hP _ _ _
    · split at hq
      · simp at hq; subst hq; exact hP _ _ _
      · split at hq
        · simp at hq; subst hq; exact hP _ _ _
        · split at hq
          · simp at hq; subst hq; exact hP _ _ _
          · split at hq
            · simp at hq; subst hq; exact hP _ _ _
            · simp only [Run.after_trace, Run.thenPrint_trace, List.singleton_append,
                List.mem_cons] at hq
              rcases hq with hq | hq
              · subst hq; exact hP _ _ _
              · exact scalePods_forall P w ns token command baseURL hP _ _ q hq

theorem restartOldPods_forall (P : Request → Prop) (w : World) (ns token : String)
    (threshold : Int) (baseURL : String) (hP : ∀ m u b, P (newRequest m u token b)) :
    ∀ q ∈ (restartOldPods w ns token threshold baseURL).trace, P q := by
  intro q hq
  unfold restartOldPods at hq
  simp only at hq
  split at hq
  · simp at hq
  · split at hq
    · simp at hq; subst hq; exact hP _ _ _
    · split at hq
      · simp at hq; subst hq; exact hP _ _ _
      · split at hq
        · simp at hq; subst hq; exact hP _ _ _
        · split at hq
          · simp at hq; subst hq; exact hP _ _ _
          · split at hq
            · simp at hq; subst hq; exact hP _ _ _
            · simp only [Run.after_trace, Run.thenPrint_trace, List.singleton_append,
                List.mem_cons] at hq
              rcases hq with hq | hq
              · subst hq; exact hP _ _ _
              · exact restartLoop_forall P w token _ threshold hP _ _ _ _ q hq

theorem main_forall (P : Request → Prop) (w : World) (out : String) (prod : Bool)
    (argsParse : Command) (hP : ∀ m u b, P (newRequest m u (TrimSpace out) b)) :
    ∀ q ∈ (main w (some out) prod argsParse).trace, P q := by
  cases argsParse with
  | scaleup n => exact getDeployments_forall P w _ _ _ _ hP
  | scaledown n => exact getDeployments_forall P w _ _ _ _ hP
  | restartPods n t => exact restartOldPods_forall P w _ _ _ _ hP

theorem trim_spec {α : Type} (p : α → Bool) (l : List α) :
    ∃ pre suf, l = pre ++ (l.dropWhile p).rdropWhile p ++ suf ∧
      (∀ c ∈ pre, p c = true) ∧ (∀ c ∈ suf, p c = true) ∧
      (∀ c, ((l.dropWhile p).rdropWhile p).head? = some c → p c = false) ∧
      (∀ c, ((l.dropWhile p).rdropWhile p).getLast? = some c → p c = false) := by
  refine ⟨l.takeWhile p, (l.dropWhile p).rtakeWhile p, ?_, ?_, ?_, ?_, ?_⟩
  · have h : (l.dropWhile p).rdropWhile p ++ (l.dropWhile p).rtakeWhile p = l.dropWhile p := by
      simp [List.rdropWhile, List.rtakeWhile, ← List.reverse_append]
    rw [List.append_assoc, h, List.takeWhile_append_dropWhile]
  · intro c hc; exact List.mem_takeWhile_imp hc
  · intro c hc; exact List.mem_rtakeWhile_imp hc
  · intro c hc
    obtain ⟨t, ht⟩ := List.rdropWhile_prefix p (l.dropWhile p)
    cases hd : (l.dropWhile p).rdropWhile p with
    | nil => rw [hd] at hc; simp at hc
    | cons a as =>
      rw [hd] at hc ht
      simp at hc
      subst hc
      have hpos : 0 < (l.dropWhile p).length := by rw [← ht]; simp
      have := List.dropWhile_get_zero_not p l hpos
      simp only [List.get_eq_getElem] at this
      have h0 : (l.dropWhile p)[0] = a := by
        simp [← ht]
      rw [h0] at this
      simpa using this
  · intro c hc
    by_cases hne : (l.dropWhile p).rdropWhile p = []
    · rw [hne] at hc; simp at hc
    · have := List.rdropWhile_last_not p (l.dropWhile p) hne
      rw [List.getLast?_eq_getLast _ hne] at hc
      simp at hc
      rw [hc] at this
      simpa using this

theorem scalePodsLoop_step (w : World) (hw : w.Responsive) (ns token command baseURL : String)
    (hist : List Request) (name : String) (rest : List String) :
    ∃ resp, (w.send hist (newRequest "GET" (scaleURL baseURL ns name) token none)).resp = some resp ∧
      scalePodsLoop w ns token command baseURL hist (name :: rest) =
        match adjustReplicas command resp.Body.scale.value.Spec.Replicas with
        | none =>
          Run.after [newRequest "GET" (scaleURL baseURL ns name) token none]
            (decodeMsgs resp.Body.scale.err)
            (scalePodsLoop w ns token command baseURL
              (hist ++ [newRequest "GET" (scaleURL baseURL ns name) token none]) rest)
        | some k =>
          Run.after
            [newRequest "GET" (scaleURL baseURL ns name) token none,
              newRequest "PUT" (scaleURL baseURL ns name) token
                (some { resp.Body.scale.value with Spec := ⟨k⟩ })]
            (decodeMsgs resp.Body.scale.err ++
              [Msg.scalingDeployment name resp.Body.scale.value.Spec.Replicas k])
            (scalePodsLoop w ns token command baseURL
              (hist ++ [newRequest "GET" (scaleURL baseURL ns name) token none,
                newRequest "PUT" (scaleURL baseURL ns name) token
                  (some { resp.Body.scale.value with Spec := ⟨k⟩ })]) rest) := by
  obtain ⟨hv, hs⟩ := hw
  obtain ⟨resp, hresp, hread⟩ := hs hist (newRequest "GET" (scaleURL baseURL ns name) token none)
  refine ⟨resp, hresp, ?_⟩
  rw [scalePodsLoop]
  simp only [hv, hresp, hread, Bool.true_eq_false, Bool.false_eq_true, if_false]
  cases hadj : adjustReplicas command resp.Body.scale.value.Spec.Replicas with
  | none => simp only [decodeMsgs]
  | some k =>
    obtain ⟨resp2, hresp2, hread2⟩ :=
      hs (hist ++ [newRequest "GET" (scaleURL baseURL ns name) token none])
        (newRequest "PUT" (scaleURL baseURL ns name) token
          (some { resp.Body.scale.value with Spec := ⟨k⟩ }))
    simp only [putScale, hresp2, hread2, Bool.false_eq_true, if_false, Run.after, decodeMsgs,
      List.append_assoc, List.singleton_append, List.nil_append, List.cons_append]

theorem adjustReplicas_up (n : Int) : adjustReplicas "scale-up" n = some (wrapInt (n + 1)) := by
  simp [adjustReplicas]

theorem scalePodsLoop_scale_up (w : World) (hw : w.Responsive) (ns token baseURL : String)
    (names : List String) :
    ∀ hist,
      (scalePodsLoop w ns token "scale-up" baseURL hist names).exit = Exit.returned ∧
      (scalePodsLoop w ns token "scale-up" baseURL hist names).trace.length = 2 * names.length ∧
      ∀ i (hi : i < names.length), ∃ resp,
        (w.send (hist ++ (scalePodsLoop w ns token "scale-up" baseURL hist names).trace.take (2 * i))
          (newRequest "GET" (scaleURL baseURL ns names[i]) token none)).resp = some resp ∧
        (scalePodsLoop w ns token "scale-up" baseURL hist names).trace[2 * i]? =
          some (newRequest "GET" (scaleURL baseURL ns names[i]) token none) ∧
        (scalePodsLoop w ns token "scale-up" baseURL hist names).trace[2 * i + 1]? =
          some (newRequest "PUT" (scaleURL baseURL ns names[i]) token
            (some { resp.Body.scale.value with
              Spec := ⟨wrapInt (resp.Body.scale.value.Spec.Replicas + 1)⟩ })) := by
  induction names with
  | nil =>
    intro hist
    refine ⟨by simp [scalePodsLoop], by simp [scalePodsLoop], ?_⟩
    intro i hi; simp at hi
  | cons name rest ih =>
    intro hist
    obtain ⟨resp, hresp, heq⟩ := scalePodsLoop_step w hw ns token "scale-up" baseURL hist name rest
    rw [adjustReplicas_up] at heq
    simp only at heq
    rw [heq]
    obtain ⟨ihexit, ihlen, ihidx⟩ := ih (hist ++ [newRequest "GET" (scaleURL baseURL ns name) token none,
                newRequest "PUT" (scaleURL baseURL ns name) token
                  (some { resp.Body.scale.value with
                    Spec := ⟨wrapInt (resp.Body.scale.value.Spec.Replicas + 1)⟩ })])
    refine ⟨by simpa [Run.after_exit] using ihexit, ?_, ?_⟩
    · simp only [Run.after_trace, List.length_append, ihlen, List.length_cons, List.length_nil]
      omega
    · intro i hi
      cases i with
      | zero =>
        refine ⟨resp, ?_, ?_, ?_⟩
        · simpa using hresp
        · simp [Run.after_trace]
        · simp [Run.after_trace]
      | succ j =>
        have hj : j < rest.length := by simpa using hi
        obtain ⟨resp2, h1, h2, h3⟩ := ihidx j hj
        refine ⟨resp2, ?_, ?_, ?_⟩
        · have e : 2 * (j + 1) = 2 * j + 2 := by omega
          simp only [Run.after_trace, e, List.getElem_cons_succ]
          simpa [List.take_succ_cons, List.append_assoc] using h1
        · have e : 2 * (j + 1) = 2 * j + 2 := by omega
          simp only [Run.after_trace, e, List.getElem_cons_succ]
          simpa using h2
        · have e : 2 * (j + 1) + 1 = (2 * j + 1) + 2 := by omega
          simp only [Run.after_trace, e, List.getElem_cons_succ]
          simpa using h3

theorem adjustReplicas_down (n : Int) :
    adjustReplicas "scale-down" n = if n = 0 then none else some (wrapInt (n - 1)) := by
  have hne : ¬ ("scale-down" = "scale-up") := by decide
  simp [adjustReplicas, hne]

theorem scalePodsLoop_head (w : World) (hw : w.Responsive) (ns token command baseURL : String)
    (names : List String) (hist : List Request) (q : Request)
    (hq : (scalePodsLoop w ns token command baseURL hist names).trace[0]? = some q) :
    q.method = "GET" := by
  cases names with
  | nil => simp [scalePodsLoop] at hq
  | cons name rest =>
    obtain ⟨resp, _, heq⟩ := scalePodsLoop_step w hw ns token command baseURL hist name rest
    rw [heq] at hq
    cases hadj : adjustReplicas command resp.Body.scale.value.Spec.Replicas with
    | none =>
      rw [hadj] at hq
      simp [Run.after_trace] at hq
      rw [← hq]; rfl
    | some k =>
      rw [hadj] at hq
      simp [Run.after_trace] at hq
      rw [← hq]; rfl

theorem scalePodsLoop_scale_down (w : World) (hw : w.Responsive) (ns token baseURL : String)
    (names : List String) :
    ∀ hist,
      (scalePodsLoop w ns token "scale-down" baseURL hist names).exit = Exit.returned ∧
      ((scalePodsLoop w ns token "scale-down" baseURL hist names).trace.filter
          (fun q => q.method = "GET")).map (fun q => q.url) =
        names.map (scaleURL baseURL ns) ∧
      (∀ k req, (scalePodsLoop w ns token "scale-down" baseURL hist names).trace[k]? = some req →
        req.method = "GET" →
        ∃ resp,
          (w.send (hist ++ (scalePodsLoop w ns token "scale-down" baseURL hist names).trace.take k)
            req).resp = some resp ∧
          (resp.Body.scale.value.Spec.Replicas = 0 →
            ∀ q, (scalePodsLoop w ns token "scale-down" baseURL hist names).trace[k + 1]? = some q →
              q.method = "GET") ∧
          (resp.Body.scale.value.Spec.Replicas ≠ 0 →
            (scalePodsLoop w ns token "scale-down" baseURL hist names).trace[k + 1]? =
              some (newRequest "PUT" req.url token
                (some { resp.Body.scale.value with
                  Spec := ⟨wrapInt (resp.Body.scale.value.Spec.Replicas - 1)⟩ })))) ∧
      (∀ k q, (scalePodsLoop w ns token "scale-down" baseURL hist names).trace[k]? = some q →
        q.method = "PUT" →
        ∃ j g, k = j + 1 ∧
          (scalePodsLoop w ns token "scale-down" baseURL hist names).trace[j]? = some g ∧
          g.method = "GET") := by
  have hgp : ¬ ("PUT" = "GET") := by decide
  have hpg : ¬ ("GET" = "PUT") := by decide
  induction names with
  | nil =>
    intro hist
    refine ⟨by simp [scalePodsLoop], by simp [scalePodsLoop], ?_, ?_⟩
    · intro k req h; simp [scalePodsLoop] at h
    · intro k req h; simp [scalePodsLoop] at h
  | cons name rest ih =>
    intro hist
    obtain ⟨resp, hresp, heq⟩ := scalePodsLoop_step w hw ns token "scale-down" baseURL hist name rest
    rw [adjustReplicas_down] at heq
    by_cases hn : resp.Body.scale.value.Spec.Replicas = 0
    · simp only [hn, if_true] at heq
      rw [heq]
      obtain ⟨ihexit, ihget, ihidx, ihput⟩ :=
        ih (hist ++ [newRequest "GET" (scaleURL baseURL ns name) token none])
      have hhead := scalePodsLoop_head w hw ns token "scale-down" baseURL rest
        (hist ++ [newRequest "GET" (scaleURL baseURL ns name) token none])
      refine ⟨by simpa [Run.after_exit] using ihexit, ?_, ?_, ?_⟩
      · simp only [Run.after_trace, List.singleton_append, List.map_cons]
        rw [List.filter_cons_of_pos (by simp [newRequest]), List.map_cons, ihget]
        rfl
      · intro k req hk hm
        cases k with
        | zero =>
          simp only [Run.after_trace, List.singleton_append, List.getElem?_cons_zero,
            Option.some.injEq] at hk
          subst hk
          refine ⟨resp, by simpa using hresp, ?_, fun h => absurd hn h⟩
          intro _ q hq
          simp only [Run.after_trace, List.singleton_append, zero_add,
            List.getElem?_cons_succ] at hq
          exact hhead q hq
        | succ j =>
          simp only [Run.after_trace, List.singleton_append, List.getElem?_cons_succ] at hk
          obtain ⟨resp2, h1, h2, h3⟩ := ihidx j req hk hm
          refine ⟨resp2, ?_, ?_, ?_⟩
          · simpa [Run.after_trace, List.take_succ_cons, List.append_assoc] using h1
          · intro h0 q hq
            simp only [Run.after_trace, List.singleton_append, List.getElem?_cons_succ] at hq
            exact h2 h0 q hq
          · intro h0
            simp only [Run.after_trace, List.singleton_append, List.getElem?_cons_succ]
            exact h3 h0
      · intro k q hk hm
        cases k with
        | zero =>
          simp only [Run.after_trace, List.singleton_append, List.getElem?_cons_zero,
            Option.some.injEq] at hk
          subst hk
          exact absurd hm hpg
        | succ j =>
          simp only [Run.after_trace, List.singleton_append, List.getElem?_cons_succ] at hk
          obtain ⟨i, g, hi, hg, hgm⟩ := ihput j q hk hm
          refine ⟨i + 1, g, by omega, ?_, hgm⟩
          simpa [Run.after_trace] using hg
    · simp only [hn, if_false] at heq
      rw [heq]
      obtain ⟨ihexit, ihget, ihidx, ihput⟩ :=
        ih (hist ++ [newRequest "GET" (scaleURL baseURL ns name) token none,
          newRequest "PUT" (scaleURL baseURL ns name) token
            (some { resp.Body.scale.value with
              Spec := ⟨wrapInt (resp.Body.scale.value.Spec.Replicas - 1)⟩ })])
      refine ⟨by simpa [Run.after_exit] using ihexit, ?_, ?_, ?_⟩
      · simp only [Run.after_trace, List.cons_append, List.nil_append, List.map_cons]
        rw [List.filter_cons_of_pos (by simp [newRequest]),
          List.filter_cons_of_neg (by simp [newRequest]), List.map_cons, ihget]
        rfl
      · intro k req hk hm
        cases k with
        | zero =>
          simp only [Run.after_trace, List.cons_append, List.getElem?_cons_zero,
            Option.some.injEq] at hk
          subst hk
          refine ⟨resp, by simpa using hresp, fun h => absurd h hn, ?_⟩
          intro _
          simp [Run.after_trace, newRequest]
        | succ j =>
          cases j with
          | zero =>
            simp only [Run.after_trace, List.cons_append, zero_add, List.getElem?_cons_succ,
              List.getElem?_cons_zero, Option.some.injEq] at hk
            subst hk
            exact absurd hm hgp
          | succ i =>
            simp only [Run.after_trace, List.cons_append, List.nil_append,
              List.getElem?_cons_succ] at hk
            obtain ⟨resp2, h1, h2, h3⟩ := ihidx i req hk hm
            refine ⟨resp2, ?_, ?_, ?_⟩
            · simpa [Run.after_trace, List.take_succ_cons, List.append_assoc] using h1
            · intro h0 q hq
              simp only [Run.after_trace, List.cons_append, List.nil_append,
                List.getElem?_cons_succ] at hq
              exact h2 h0 q hq
            · intro h0
              simp only [Run.after_trace, List.cons_append, List.nil_append,
                List.getElem?_cons_succ]
              exact h3 h0
      · intro k q hk hm
        cases k with
        | zero =>
          simp only [Run.after_trace, List.cons_append, List.getElem?_cons_zero,
            Option.some.injEq] at hk
          subst hk
          exact absurd hm hpg
        | succ j =>
          cases j with
          | zero =>
            exact ⟨0, newRequest "GET" (scaleURL baseURL ns name) token none, rfl,
              by simp [Run.after_trace], rfl⟩
          | succ i =>
            simp only [Run.after_trace, List.cons_append, List.nil_append,
              List.getElem?_cons_succ] at hk
            obtain ⟨i2, g, hi, hg, hgm⟩ := ihput i q hk hm
            refine ⟨i2 + 2, g, by omega, ?_, hgm⟩
            simpa [Run.after_trace] using hg

theorem oldPods_nil (w : World) (threshold : Int) (i : Nat) : oldPods w threshold i [] = [] := rfl

theorem oldPods_cons (w : World) (threshold : Int) (i : Nat) (pod : Pod) (rest : List Pod) :
    oldPods w threshold i (pod :: rest) =
      if isOld (w.now i) pod.Status.StartTime threshold then pod :: oldPods w threshold (i + 1) rest
      else oldPods w threshold (i + 1) rest := by
  unfold oldPods
  simp only [List.enumFrom_cons, List.filter_cons]
  split <;> simp

theorem oldPods_const (w : World) (threshold : Int) (now : Time) (hnow : ∀ j, w.now j = now)
    (pods : List Pod) : ∀ i,
    oldPods w threshold i pods = pods.filter fun p => isOld now p.Status.StartTime threshold := by
  induction pods with
  | nil => intro i; rfl
  | cons pod rest ih =>
    intro i
    rw [oldPods_cons, ih, hnow, List.filter_cons]

theorem restartLoop_responsive (w : World) (hw : w.Responsive) (token url : String)
    (threshold : Int) (pods : List Pod) :
    ∀ hist i c,
      restartLoop w token url threshold hist i c pods =
        (⟨(oldPods w threshold i pods).map (deleteRequest url token),
          (oldPods w threshold i pods).map (fun p => Msg.restartingPod p.Metadata.Name),
          Exit.returned⟩, c + (oldPods w threshold i pods).length) := by
  induction pods with
  | nil => intro hist i c; simp [restartLoop, oldPods_nil]
  | cons pod rest ih =>
    intro hist i c
    rw [restartLoop, oldPods_cons]
    by_cases hold : isOld (w.now i) pod.Status.StartTime threshold = true
    · obtain ⟨resp, hresp, hread⟩ :=
        hw.2 hist (newRequest "DELETE" (deleteURL url pod.Metadata.Name) token none)
      simp only [hold, if_true, hw.1, Bool.true_eq_false, if_false, hresp, hread,
        Bool.false_eq_true, ih, Run.after, List.map_cons, List.length_cons, deleteRequest,
        List.singleton_append, Prod.mk.injEq, true_and]
      push_cast
      ring
    · simp only [hold, if_false, ih, Bool.false_eq_true]

/-- The ways one iteration of the loop of `scalePods` can go, in any world. -/
theorem scalePodsLoop_cases (w : World) (ns token command baseURL : String)
    (hist : List Request) (name : String) (rest : List String) :
    ((scalePodsLoop w ns token command baseURL hist (name :: rest)).trace = [] ∧
      (scalePodsLoop w ns token command baseURL hist (name :: rest)).exit = Exit.panic) ∨
    ((scalePodsLoop w ns token command baseURL hist (name :: rest)).trace =
        [newRequest "GET" (scaleURL baseURL ns name) token none] ∧
      (scalePodsLoop w ns token command baseURL hist (name :: rest)).exit ≠ Exit.returned ∧
      ((w.send hist (newRequest "GET" (scaleURL baseURL ns name) token none)).resp = none ∨
        ∃ resp, (w.send hist (newRequest "GET" (scaleURL baseURL ns name) token none)).resp =
          some resp ∧ resp.Body.readErr = true)) ∨
    (∃ resp, (w.send hist (newRequest "GET" (scaleURL baseURL ns name) token none)).resp =
        some resp ∧ resp.Body.readErr = false ∧
      adjustReplicas command resp.Body.scale.value.Spec.Replicas = none ∧
      scalePodsLoop w ns token command baseURL hist (name :: rest) =
        Run.after [newRequest "GET" (scaleURL baseURL ns name) token none]
          (decodeMsgs resp.Body.scale.err)
          (scalePodsLoop w ns token command baseURL
            (hist ++ [newRequest "GET" (scaleURL baseURL ns name) token none]) rest)) ∨
    (∃ resp k, (w.send hist (newRequest "GET" (scaleURL baseURL ns name) token none)).resp =
        some resp ∧ resp.Body.readErr = false ∧
      adjustReplicas command resp.Body.scale.value.Spec.Replicas = some k ∧
      (((scalePodsLoop w ns token command baseURL hist (name :: rest)).trace =
          [newRequest "GET" (scaleURL baseURL ns name) token none,
            newRequest "PUT" (scaleURL baseURL ns name) token
              (some { resp.Body.scale.value with Spec := ⟨k⟩ })] ∧
        (scalePodsLoop w ns token command baseURL hist (name :: rest)).exit ≠ Exit.returned) ∨
       (scalePodsLoop w ns token command baseURL hist (name :: rest) =
          Run.after
            [newRequest "GET" (scaleURL baseURL ns name) token none,
              newRequest "PUT" (scaleURL baseURL ns name) token
                (some { resp.Body.scale.value with Spec := ⟨k⟩ })]
            (decodeMsgs resp.Body.scale.err ++
              [Msg.scalingDeployment name resp.Body.scale.value.Spec.Replicas k])
            (scalePodsLoop w ns token command baseURL
              (hist ++ [newRequest "GET" (scaleURL baseURL ns name) token none,
                newRequest "PUT" (scaleURL baseURL ns name) token
                  (some { resp.Body.scale.value with Spec := ⟨k⟩ })]) rest)))) := by
  by_cases hv : w.validURL (scaleURL baseURL ns name) = false
  · left; rw [scalePodsLoop]; simp [hv]
  · right
    have hv' : w.validURL (scaleURL baseURL ns name) = true := by simpa using hv
    cases hresp : (w.send hist (newRequest "GET" (scaleURL baseURL ns name) token none)).resp with
    | none => left; rw [scalePodsLoop]; simp [hv', hresp]
    | some resp =>
      by_cases hread : resp.Body.readErr = true
      · left; rw [scalePodsLoop]; simp [hv', hresp, hread]
      · right
        have hread' : resp.Body.readErr = false := by simpa using hread
        cases hadj : adjustReplicas command resp.Body.scale.value.Spec.Replicas with
        | none =>
          left
          refine ⟨resp, rfl, hread', hadj, ?_⟩
          rw [scalePodsLoop]
          simp only [hv', hresp, hread', hadj, Bool.true_eq_false, Bool.false_eq_true, if_false,
            decodeMsgs]
        | some k =>
          right
          refine ⟨resp, k, rfl, hread', hadj, ?_⟩
          cases hresp2 : (w.send (hist ++ [newRequest "GET" (scaleURL baseURL ns name) token none])
              (newRequest "PUT" (scaleURL baseURL ns name) token
                (some { resp.Body.scale.value with Spec := ⟨k⟩ }))).resp with
          | none =>
            left
            rw [scalePodsLoop]
            simp only [hv', hresp, hread', hadj, Bool.true_eq_false, Bool.false_eq_true, if_false,
              putScale, hresp2, Run.after]
            simp
          | some resp2 =>
            by_cases hread2 : resp2.Body.readErr = true
            · left
              rw [scalePodsLoop]
              simp only [hv', hresp, hread', hadj, Bool.true_eq_false, Bool.false_eq_true,
                if_false, putScale, hresp2, hread2, if_true, Run.after]
              simp
            · right
              have hread2' : resp2.Body.readErr = false := by simpa using hread2
              rw [scalePodsLoop]
              simp only [hv', hresp, hread', hread2', hadj, Bool.true_eq_false,
                Bool.false_eq_true, if_false, putScale, hresp2, Run.after, decodeMsgs,
                List.append_assoc, List.singleton_append, List.nil_append, List.cons_append]

theorem scalePodsLoop_failed_get (w : World) (ns token command baseURL : String)
    (names : List String) :
    ∀ hist k req,
      (scalePodsLoop w ns token command baseURL hist names).trace[k]? = some req →
      req.method = "GET" →
      ((w.send (hist ++ (scalePodsLoop w ns token command baseURL hist names).trace.take k)
          req).resp = none ∨
        ∃ resp, (w.send (hist ++ (scalePodsLoop w ns token command baseURL hist names).trace.take k)
          req).resp = some resp ∧ resp.Body.readErr = true) →
      (scalePodsLoop w ns token command baseURL hist names).trace.length = k + 1 ∧
        (scalePodsLoop w ns token command baseURL hist names).exit ≠ Exit.returned := by
  have hgp : ¬ ("PUT" = "GET") := by decide
  induction names with
  | nil => intro hist k req h; simp [scalePodsLoop] at h
  | cons name rest ih =>
    intro hist k req h hm hfail
    rcases scalePodsLoop_cases w ns token command baseURL hist name rest with
      ⟨ht, _⟩ | ⟨ht, hexit, _⟩ | ⟨resp, hresp, hread, _, heq⟩ | ⟨resp, r, hresp, hread, _, hcase⟩
    · rw [ht] at h; simp at h
    · rw [ht] at h ⊢
      cases k with
      | zero => exact ⟨rfl, hexit⟩
      | succ j => simp at h
    · rw [heq] at h hfail ⊢
      cases k with
      | zero =>
        simp only [Run.after_trace, List.singleton_append, List.getElem?_cons_zero,
          Option.some.injEq] at h
        subst h
        simp [hresp, hread] at hfail
      | succ j =>
        simp only [Run.after_trace, List.singleton_append, List.getElem?_cons_succ] at h
        simp only [Run.after_trace, List.singleton_append, List.take_succ_cons] at hfail
        have := ih (hist ++ [newRequest "GET" (scaleURL baseURL ns name) token none]) j req h hm
          (by simpa [List.append_assoc] using hfail)
        simpa [Run.after_trace, Run.after_exit] using this
    · rcases hcase with ⟨ht, hexit⟩ | heq
      · rw [ht] at h hfail ⊢
        cases k with
        | zero =>
          simp only [List.getElem?_cons_zero, Option.some.injEq] at h
          subst h
          simp [hresp, hread] at hfail
        | succ j =>
          cases j with
          | zero =>
            simp only [zero_add, List.getElem?_cons_succ, List.getElem?_cons_zero,
              Option.some.injEq] at h
            subst h
            exact absurd hm hgp
          | succ i => simp at h
      · rw [heq] at h hfail ⊢
        cases k with
        | zero =>
          simp only [Run.after_trace, List.cons_append, List.getElem?_cons_zero,
            Option.some.injEq] at h
          subst h
          simp [hresp, hread] at hfail
        | succ j =>
          cases j with
          | zero =>
            simp only [Run.after_trace, List.cons_append, zero_add, List.getElem?_cons_succ,
              List.getElem?_cons_zero, Option.some.injEq] at h
            subst h
            exact absurd hm hgp
          | succ i =>
            simp only [Run.after_trace, List.cons_append, List.nil_append,
              List.getElem?_cons_succ] at h
            simp only [Run.after_trace, List.cons_append, List.nil_append,
              List.take_succ_cons] at hfail
            have := ih (hist ++ [newRequest "GET" (scaleURL baseURL ns name) token none,
                newRequest "PUT" (scaleURL baseURL ns name) token
                  (some { resp.Body.scale.value with Spec := ⟨r⟩ })]) i req h hm
              (by simpa [List.append_assoc] using hfail)
            simpa [Run.after_trace, Run.after_exit] using this

theorem restartOldPods_eq (w : World) (hw : w.Responsive) (ns token : String) (threshold : Int)
    (baseURL : String) (resp : Response)
    (hlist : w.send [] (newRequest "GET" (podsURL baseURL ns) token none) = ⟨some resp, false⟩)
    (h401 : resp.StatusCode ≠ 401) :
    restartOldPods w ns token threshold baseURL =
      if resp.Body.podList.value.Items.length = 0 then
        ⟨[newRequest "GET" (podsURL baseURL ns) token none],
          decodeMsgs resp.Body.podList.err ++ [Msg.noPods ns], Exit.returned⟩
      else
        ⟨newRequest "GET" (podsURL baseURL ns) token none ::
            (oldPods w threshold 0 resp.Body.podList.value.Items).map
              (deleteRequest (podsURL baseURL ns) token),
          decodeMsgs resp.Body.podList.err ++
            ((oldPods w threshold 0 resp.Body.podList.value.Items).map
              (fun p => Msg.restartingPod p.Metadata.Name) ++
            [if (oldPods w threshold 0 resp.Body.podList.value.Items).length = 0
              then Msg.noneOlder ns threshold
              else Msg.restarted (oldPods w threshold 0 resp.Body.podList.value.Items).length ns]),
          Exit.returned⟩ := by
  obtain ⟨resp', hresp', hread⟩ := hw.2 [] (newRequest "GET" (podsURL baseURL ns) token none)
  rw [hlist] at hresp'
  simp only [Option.some.injEq] at hresp'
  subst hresp'
  unfold restartOldPods
  simp only [hw.1, hlist, h401, hread, Bool.true_eq_false, Bool.false_eq_true, if_false,
    restartLoop_responsive w hw, Run.after, Run.thenPrint, if_true, decodeMsgs, zero_add,
    List.singleton_append, Nat.cast_eq_zero]

/-! ## float64: rounding -/

theorem bitLen_spec : ∀ fuel n : Nat, n ≤ fuel → n < 2 ^ bitLen fuel n ∧
    (0 < n → 2 ^ (bitLen fuel n - 1) ≤ n) := by
  intro fuel
  induction fuel with
  | zero =>
    intro n hn
    have : n = 0 := by omega
    subst this
    simp [bitLen]
  | succ f ih =>
    intro n hn
    rw [bitLen]
    by_cases h0 : n = 0
    · subst h0; simp
    · simp only [h0, if_false]
      have hle : n / 2 ≤ f := by omega
      obtain ⟨h1, h2⟩ := ih (n / 2) hle
      constructor
      · rw [pow_succ]; omega
      · intro _
        simp only [Nat.add_sub_cancel]
        by_cases h3 : n / 2 = 0
        · have : bitLen f (n / 2) = 0 := by
            rw [h3]; cases f <;> simp [bitLen]
          rw [this]; simp; omega
        · have h4 := h2 (by omega)
          have : bitLen f (n / 2) = (bitLen f (n / 2) - 1) + 1 := by
            have : 0 < bitLen f (n / 2) := by
              by_contra hc
              have : bitLen f (n / 2) = 0 := by omega
              rw [this] at h1
              omega
            omega
          rw [this, pow_succ]
          omega

theorem roundHalfEven_zero (n : Nat) : roundHalfEven n 0 = n := by
  simp [roundHalfEven, Nat.mod_one]

theorem roundHalfEven_ge (n k C : Nat) (h : C * 2 ^ k ≤ n) : C ≤ roundHalfEven n k := by
  have hq : C ≤ n / 2 ^ k := (Nat.le_div_iff_mul_le (by positivity)).2 h
  unfold roundHalfEven
  simp only
  split_ifs <;> omega

theorem roundHalfEven_le (n k C : Nat) (h : n ≤ C * 2 ^ k) : roundHalfEven n k ≤ C := by
  have hpos : 0 < 2 ^ k := by positivity
  have hq : n / 2 ^ k ≤ C := by
    calc n / 2 ^ k ≤ C * 2 ^ k / 2 ^ k := Nat.div_le_div_right h
      _ = C := Nat.mul_div_cancel _ hpos
  have hdm := Nat.div_add_mod n (2 ^ k)
  unfold roundHalfEven
  simp only
  by_cases hr : n % 2 ^ k = 0
  · simp [hr, hpos]; exact hq
  · have hlt : n / 2 ^ k < C := by
      by_contra hc
      have : n / 2 ^ k = C := by omega
      rw [this] at hdm
      have : 2 ^ k * C = C * 2 ^ k := Nat.mul_comm _ _
      omega
    split_ifs <;> omega

theorem round_core (n : Nat) (y : ℚ)
    (hy : (∃ C : Nat, y = (C : ℚ) * 2 ^ (bitLen n n - 53)) ∨ y < 2 ^ (52 + (bitLen n n - 53))) :
    (y ≤ n → y ≤ (roundHalfEven n (bitLen n n - 53) : ℚ) * 2 ^ (bitLen n n - 53)) ∧
    ((n : ℚ) ≤ y → (roundHalfEven n (bitLen n n - 53) : ℚ) * 2 ^ (bitLen n n - 53) ≤ y) := by
  by_cases hk : bitLen n n - 53 = 0
  · rw [hk, roundHalfEven_zero]; simp
  · have hn : 0 < n := by
      rcases Nat.eq_zero_or_pos n with h | h
      · subst h; simp [bitLen] at hk
      · exact h
    have hlow := (bitLen_spec n n le_rfl).2 hn
    have hexp : bitLen n n - 1 = 52 + (bitLen n n - 53) := by omega
    rw [hexp] at hlow
    have hlowQ : (2 : ℚ) ^ (52 + (bitLen n n - 53)) ≤ n := by exact_mod_cast hlow
    have hr52 : 2 ^ 52 ≤ roundHalfEven n (bitLen n n - 53) := by
      apply roundHalfEven_ge
      rw [← pow_add]; exact hlow
    have hr52Q : (2 : ℚ) ^ (52 + (bitLen n n - 53)) ≤
        (roundHalfEven n (bitLen n n - 53) : ℚ) * 2 ^ (bitLen n n - 53) := by
      rw [pow_add]
      have h1 : (2 : ℚ) ^ 52 ≤ (roundHalfEven n (bitLen n n - 53) : ℚ) := by
        exact_mod_cast hr52
      exact mul_le_mul_of_nonneg_right h1 (by positivity)
    rcases hy with ⟨C, hC⟩ | hlt
    · subst hC
      constructor
      · intro h
        have h' : C * 2 ^ (bitLen n n - 53) ≤ n := by exact_mod_cast h
        have := roundHalfEven_ge n _ C h'
        have hq : (C : ℚ) ≤ (roundHalfEven n (bitLen n n - 53) : ℚ) := by exact_mod_cast this
        exact mul_le_mul_of_nonneg_right hq (by positivity)
      · intro h
        have h' : n ≤ C * 2 ^ (bitLen n n - 53) := by exact_mod_cast h
        have := roundHalfEven_le n _ C h'
        have hq : (roundHalfEven n (bitLen n n - 53) : ℚ) ≤ (C : ℚ) := by exact_mod_cast this
        exact mul_le_mul_of_nonneg_right hq (by positivity)
    · constructor
      · intro _; exact le_of_lt (lt_of_lt_of_le hlt hr52Q)
      · intro h; exact absurd (lt_of_lt_of_le hlt hlowQ) (not_lt.2 h)

theorem round_shape (c : Nat) (hc : c < 2 ^ 53) (e : Int) (k : Nat) :
    (∃ C : Nat, (c : ℚ) / (2 : ℚ) ^ e = (C : ℚ) * 2 ^ k) ∨
      (c : ℚ) / (2 : ℚ) ^ e < 2 ^ (52 + k) := by
  by_cases h : e + k ≤ 0
  · left
    refine ⟨c * 2 ^ (-(e + k)).toNat, ?_⟩
    have he : -e = ((-(e + k)).toNat : Int) + (k : Int) := by
      rw [Int.toNat_of_nonneg (by omega)]; ring
    rw [div_eq_mul_inv, ← zpow_neg, he, zpow_add₀ (two_ne_zero), zpow_natCast, zpow_natCast]
    push_cast
    ring
  · right
    have hcQ : (c : ℚ) < 2 ^ 53 := by exact_mod_cast hc
    have hpos : (0 : ℚ) < (2 : ℚ) ^ (-e) := by positivity
    have hle : (2 : ℚ) ^ (-e) ≤ (2 : ℚ) ^ ((k : Int) - 1) :=
      zpow_le_zpow_right₀ (by norm_num) (by omega)
    rw [div_eq_mul_inv, ← zpow_neg]
    calc (c : ℚ) * 2 ^ (-e) < 2 ^ 53 * 2 ^ (-e) := by
          exact mul_lt_mul_of_pos_right hcQ hpos
      _ ≤ 2 ^ 53 * 2 ^ ((k : Int) - 1) := by
          exact mul_le_mul_of_nonneg_left hle (by positivity)
      _ = 2 ^ (52 + k) := by
          rw [zpow_sub₀ (two_ne_zero), zpow_natCast, pow_add]
          norm_num
          ring

theorem round_nat_bounds (n : Nat) (e c : Int) (hc : |c| < 2 ^ 53) :
    ((c : ℚ) ≤ (n : ℚ) * (2 : ℚ) ^ e →
      (c : ℚ) ≤ (roundHalfEven n (bitLen n n - 53) : ℚ) * 2 ^ (bitLen n n - 53) * (2 : ℚ) ^ e) ∧
    ((n : ℚ) * (2 : ℚ) ^ e ≤ c →
      (roundHalfEven n (bitLen n n - 53) : ℚ) * 2 ^ (bitLen n n - 53) * (2 : ℚ) ^ e ≤ c) := by
  have hP : (0 : ℚ) < (2 : ℚ) ^ e := by positivity
  have hR : (0 : ℚ) ≤ (roundHalfEven n (bitLen n n - 53) : ℚ) * 2 ^ (bitLen n n - 53) := by
    positivity
  by_cases hc0 : c < 0
  · have hcQ : (c : ℚ) < 0 := by exact_mod_cast hc0
    constructor
    · intro _
      have : (0 : ℚ) ≤ (roundHalfEven n (bitLen n n - 53) : ℚ) * 2 ^ (bitLen n n - 53) *
          (2 : ℚ) ^ e := mul_nonneg hR hP.le
      linarith
    · intro h
      have : (0 : ℚ) ≤ (n : ℚ) * (2 : ℚ) ^ e := by positivity
      linarith
  · have hc1 : 0 ≤ c := by omega
    obtain ⟨c', rfl⟩ := Int.eq_ofNat_of_zero_le hc1
    have hc' : c' < 2 ^ 53 := by
      have := abs_lt.1 hc
      exact_mod_cast this.2
    have core := round_core n ((c' : ℚ) / (2 : ℚ) ^ e)
      (round_shape c' hc' e (bitLen n n - 53))
    constructor
    · intro h
      have h1 : (c' : ℚ) / (2 : ℚ) ^ e ≤ n := by
        rw [div_le_iff₀ hP]; exact_mod_cast h
      have h2 := core.1 h1
      rw [div_le_iff₀ hP] at h2
      exact_mod_cast h2
    · intro h
      have h1 : (n : ℚ) ≤ (c' : ℚ) / (2 : ℚ) ^ e := by
        rw [le_div_iff₀ hP]; exact_mod_cast h
      have h2 := core.2 h1
      rw [le_div_iff₀ hP] at h2
      exact_mod_cast h2

theorem round_val (m e : Int) :
    (F64.round m e).val =
      (m.sign : ℚ) * ((roundHalfEven m.natAbs (bitLen m.natAbs m.natAbs - 53) : ℚ) *
        2 ^ (bitLen m.natAbs m.natAbs - 53) * (2 : ℚ) ^ e) := by
  simp only [F64.round, F64.val]
  rw [zpow_add₀ (two_ne_zero), zpow_natCast]
  push_cast
  ring

/-- Rounding never crosses an integer of less than 54 bits. -/
theorem round_bounds (m e c : Int) (hc : |c| < 2 ^ 53) :
    ((c : ℚ) ≤ (m : ℚ) * (2 : ℚ) ^ e → (c : ℚ) ≤ (F64.round m e).val) ∧
    ((m : ℚ) * (2 : ℚ) ^ e ≤ c → (F64.round m e).val ≤ c) := by
  rw [round_val]
  rcases lt_trichotomy m 0 with hm | hm | hm
  · have hs : m.sign = -1 := Int.sign_eq_neg_one_of_neg hm
    have hmn : (m : ℚ) = -(m.natAbs : ℚ) := by
      rw [← Int.cast_natCast, Int.ofNat_natAbs_of_nonpos hm.le]
      simp
    have hnc : |(-c)| < 2 ^ 53 := by rwa [abs_neg]
    have key := round_nat_bounds m.natAbs e (-c) hnc
    rw [hs, hmn]
    push_cast at key ⊢
    constructor
    · intro h
      have := key.2 (by linarith)
      linarith
    · intro h
      have := key.1 (by linarith)
      linarith
  · subst hm
    simp
  · have hs : m.sign = 1 := Int.sign_eq_one_of_pos hm
    have hmn : (m : ℚ) = (m.natAbs : ℚ) := by
      rw [← Int.cast_natCast, Int.natAbs_of_nonneg hm.le]
    have key := round_nat_bounds m.natAbs e c hc
    rw [hs, hmn]
    push_cast
    constructor
    · intro h
      have := key.1 h
      linarith
    · intro h
      have := key.2 h
      linarith

theorem align_val (m x e : Int) (h : e ≤ x) :
    ((m * 2 ^ (x - e).toNat : Int) : ℚ) * (2 : ℚ) ^ e = (m : ℚ) * (2 : ℚ) ^ x := by
  have hx : x = ((x - e).toNat : Int) + e := by
    rw [Int.toNat_of_nonneg (by omega)]; ring
  conv_rhs => rw [hx, zpow_add₀ (two_ne_zero), zpow_natCast]
  push_cast
  ring

theorem lt_iff_val (a b : F64) : F64.lt a b = true ↔ a.val < b.val := by
  have hP : (0 : ℚ) < (2 : ℚ) ^ (min a.e b.e) := by positivity
  have ha := align_val a.m a.e (min a.e b.e) (min_le_left _ _)
  have hb := align_val b.m b.e (min a.e b.e) (min_le_right _ _)
  simp only [F64.lt, decide_eq_true_eq, F64.val]
  rw [← ha, ← hb]
  constructor
  · intro h
    have hq : ((a.m * 2 ^ (a.e - min a.e b.e).toNat : Int) : ℚ) <
        ((b.m * 2 ^ (b.e - min a.e b.e).toNat : Int) : ℚ) := by exact_mod_cast h
    exact mul_lt_mul_of_pos_right hq hP
  · intro h
    have hq := lt_of_mul_lt_mul_right h hP.le
    exact_mod_cast hq

theorem add_bounds (a b : F64) (c : Int) (hc : |c| < 2 ^ 53) :
    ((c : ℚ) ≤ a.val + b.val → (c : ℚ) ≤ (F64.add a b).val) ∧
    (a.val + b.val ≤ c → (F64.add a b).val ≤ c) := by
  have ha := align_val a.m a.e (min a.e b.e) (min_le_left _ _)
  have hb := align_val b.m b.e (min a.e b.e) (min_le_right _ _)
  have hsum : ((a.m * 2 ^ (a.e - min a.e b.e).toNat + b.m * 2 ^ (b.e - min a.e b.e).toNat : Int) : ℚ)
      * (2 : ℚ) ^ (min a.e b.e) = a.val + b.val := by
    simp only [F64.val]
    rw [← ha, ← hb]
    push_cast
    ring
  have key := round_bounds
    (a.m * 2 ^ (a.e - min a.e b.e).toNat + b.m * 2 ^ (b.e - min a.e b.e).toNat)
    (min a.e b.e) c hc
  rw [hsum] at key
  exact key

theorem mul_bounds (a b : F64) (c : Int) (hc : |c| < 2 ^ 53) :
    ((c : ℚ) ≤ a.val * b.val → (c : ℚ) ≤ (F64.mul a b).val) ∧
    (a.val * b.val ≤ c → (F64.mul a b).val ≤ c) := by
  have hprod : ((a.m * b.m : Int) : ℚ) * (2 : ℚ) ^ (a.e + b.e) = a.val * b.val := by
    simp only [F64.val]
    rw [zpow_add₀ (two_ne_zero)]
    push_cast
    ring
  have key := round_bounds (a.m * b.m) (a.e + b.e) c hc
  rw [hprod] at key
  exact key

theorem ofInt_bounds (i c : Int) (hc : |c| < 2 ^ 53) :
    ((c : ℚ) ≤ i → (c : ℚ) ≤ (F64.ofInt i).val) ∧ ((i : ℚ) ≤ c → (F64.ofInt i).val ≤ c) := by
  have key := round_bounds i 0 c hc
  simpa [F64.ofInt] using key

theorem ofInt_exact (i : Int) (hi : |i| < 2 ^ 53) : F64.ofInt i = ⟨i, 0⟩ := by
  have hn : i.natAbs < 2 ^ 53 := by
    have : (i.natAbs : Int) < 2 ^ 53 := by rw [Int.natCast_natAbs]; exact hi
    exact_mod_cast this
  have hk : bitLen i.natAbs i.natAbs - 53 = 0 := by
    rcases Nat.eq_zero_or_pos i.natAbs with h | h
    · rw [h]; simp [bitLen]
    · have h2 := (bitLen_spec i.natAbs i.natAbs le_rfl).2 h
      have h3 : 2 ^ (bitLen i.natAbs i.natAbs - 1) < 2 ^ 53 := lt_of_le_of_lt h2 hn
      have h4 := (Nat.pow_lt_pow_iff_right (by norm_num : 1 < 2)).1 h3
      omega
  simp only [F64.ofInt, F64.round, hk, roundHalfEven_zero, Int.sign_mul_natAbs]
  simp

theorem round_unit_bounds (N : Nat) (E : Int) (h1 : (N : ℚ) * (2 : ℚ) ^ E ≤ 1) :
    (0 ≤ (F64.round (N : Int) E).val ∧ (F64.round (N : Int) E).val ≤ 1) ∧
    (-1 ≤ (F64.round (-(N : Int)) E).val ∧ (F64.round (-(N : Int)) E).val ≤ 0) := by
  have h0 : (0 : ℚ) ≤ (N : ℚ) * (2 : ℚ) ^ E := by positivity
  have p0 := round_bounds (N : Int) E 0 (by norm_num)
  have p1 := round_bounds (N : Int) E 1 (by norm_num)
  have n0 := round_bounds (-(N : Int)) E 0 (by norm_num)
  have n1 := round_bounds (-(N : Int)) E (-1) (by norm_num)
  push_cast at p0 p1 n0 n1
  refine ⟨⟨p0.1 h0, p1.2 h1⟩, ⟨n1.1 (by linarith), n0.2 (by linarith)⟩⟩

theorem div_fraction (n H : Int) (hH : 0 < H) (hn : |n| < H) :
    (0 ≤ n → 0 ≤ (F64.div ⟨n, 0⟩ ⟨H, 0⟩).val ∧ (F64.div ⟨n, 0⟩ ⟨H, 0⟩).val ≤ 1) ∧
    (n ≤ 0 → -1 ≤ (F64.div ⟨n, 0⟩ ⟨H, 0⟩).val ∧ (F64.div ⟨n, 0⟩ ⟨H, 0⟩).val ≤ 0) := by
  by_cases h0 : n = 0
  · subst h0
    simp [F64.div, F64.val]
  · have hH0 : H ≠ 0 := by omega
    have hsH : H.sign = 1 := Int.sign_eq_one_of_pos hH
    have hlt : n.natAbs < H.natAbs := by
      have := abs_lt.1 hn
      omega
    have hHpos : 0 < H.natAbs := by omega
    -- the quotient of the significands stays below `2 ^ t`
    have hq : ∀ t : Nat, 2 * (n.natAbs * 2 ^ t / H.natAbs) +
        (if n.natAbs * 2 ^ t % H.natAbs = 0 then 0 else 1) ≤ 2 ^ (t + 1) := by
      intro t
      have h2 : n.natAbs * 2 ^ t / H.natAbs < 2 ^ t := by
        rw [Nat.div_lt_iff_lt_mul hHpos]
        have : 0 < 2 ^ t := by positivity
        calc n.natAbs * 2 ^ t < H.natAbs * 2 ^ t := Nat.mul_lt_mul_of_pos_right hlt this
          _ = 2 ^ t * H.natAbs := Nat.mul_comm _ _
      rw [pow_succ]
      split_ifs <;> omega
    obtain ⟨N, hN⟩ : ∃ N : Nat, N = 2 * (n.natAbs * 2 ^ (55 + bitLen H.natAbs H.natAbs) /
        H.natAbs) + (if n.natAbs * 2 ^ (55 + bitLen H.natAbs H.natAbs) % H.natAbs = 0
          then 0 else 1) := ⟨_, rfl⟩
    obtain ⟨t, ht⟩ : ∃ t : Nat, t = 55 + bitLen H.natAbs H.natAbs := ⟨_, rfl⟩
    have hNle : N ≤ 2 ^ (t + 1) := by rw [hN, ht]; exact hq _
    have hval : (N : ℚ) * (2 : ℚ) ^ ((0 : Int) - 0 - (t : Int) - 1) ≤ 1 := by
      have he : (0 : Int) - 0 - (t : Int) - 1 = -((t + 1 : Nat) : Int) := by push_cast; ring
      rw [he, zpow_neg, zpow_natCast, ← div_eq_mul_inv, div_le_one (by positivity)]
      exact_mod_cast hNle
    have hdiv : F64.div ⟨n, 0⟩ ⟨H, 0⟩ =
        F64.round (n.sign * H.sign * (N : Int)) ((0 : Int) - 0 - (t : Int) - 1) := by
      simp only [F64.div, h0, hH0, or_self, if_false, hN, ht]
    rw [hdiv, hsH]
    have key := round_unit_bounds N _ hval
    constructor
    · intro hpos
      have hs : n.sign = 1 := Int.sign_eq_one_of_pos (by omega)
      rw [hs]
      simpa using key.1
    · intro hneg
      have hs : n.sign = -1 := Int.sign_eq_neg_one_of_neg (by omega)
      rw [hs]
      simpa using key.2

theorem tmod_facts (d H : Int) (hH : 0 < H) :
    d = Int.tdiv d H * H + Int.tmod d H ∧
    (0 ≤ d → 0 ≤ Int.tmod d H ∧ Int.tmod d H < H) ∧
    (d ≤ 0 → -H < Int.tmod d H ∧ Int.tmod d H ≤ 0) := by
  refine ⟨(Int.tdiv_add_tmod' d H).symm, ?_, ?_⟩
  · intro h
    exact ⟨Int.tmod_nonneg H h, Int.tmod_lt_of_pos d hH⟩
  · intro h
    have h1 : Int.tmod d H = -Int.tmod (-d) H := by
      rw [Int.tmod_def, Int.tmod_def, Int.neg_tdiv]
      ring
    have h2 := Int.tmod_nonneg H (show 0 ≤ -d by omega)
    have h3 := Int.tmod_lt_of_pos (-d) hH
    omega

theorem hour_split (d q r c : Int) (hdm : d = q * 3600000000000 + r)
    (hpos : 0 ≤ d → 0 ≤ r ∧ r < 3600000000000)
    (hneg : d ≤ 0 → -3600000000000 < r ∧ r ≤ 0) :
    (d ≤ c * 3600000000000 → (r ≤ 0 → q ≤ c) ∧ (0 < r → q + 1 ≤ c)) ∧
    (c * 3600000000000 ≤ d → (0 ≤ r → c ≤ q) ∧ (r < 0 → c + 1 ≤ q)) := by
  rcases le_total 0 d with h | h
  · have := hpos h
    refine ⟨fun _ => ⟨fun _ => ?_, fun _ => ?_⟩, fun _ => ⟨fun _ => ?_, fun _ => ?_⟩⟩ <;> omega
  · have := hneg h
    refine ⟨fun _ => ⟨fun _ => ?_, fun _ => ?_⟩, fun _ => ⟨fun _ => ?_, fun _ => ?_⟩⟩ <;> omega

theorem hour_range (d q r : Int) (hdm : d = q * 3600000000000 + r)
    (hpos : 0 ≤ d → 0 ≤ r ∧ r < 3600000000000)
    (hneg : d ≤ 0 → -3600000000000 < r ∧ r ≤ 0)
    (hd1 : -9223372036854775808 ≤ d) (hd2 : d ≤ 9223372036854775807) :
    (-9007199254740992 < q ∧ q < 9007199254740992) ∧
    (-3600000000000 < r ∧ r < 3600000000000) := by
  rcases le_total 0 d with h | h
  · have := hpos h
    refine ⟨⟨?_, ?_⟩, ?_, ?_⟩ <;> omega
  · have := hneg h
    refine ⟨⟨?_, ?_⟩, ?_, ?_⟩ <;> omega

theorem hours_bounds (d : Int) (hd1 : (-9223372036854775808 : Int) ≤ d)
    (hd2 : d ≤ (9223372036854775807 : Int)) (c : Int) (hc : |c| < 2 ^ 53) :
    (d ≤ c * (3600000000000 : Int) → (Duration.Hours d).val ≤ c) ∧
    (c * (3600000000000 : Int) ≤ d → (c : ℚ) ≤ (Duration.Hours d).val) := by
  have hH : (0 : Int) < Hour := by decide
  obtain ⟨hdm, hpos, hneg⟩ := tmod_facts d Hour hH
  have hsplit := hour_split d (Int.tdiv d Hour) (Int.tmod d Hour) c hdm hpos hneg
  obtain ⟨⟨hq1, hq2⟩, hr1, hr2⟩ :=
    hour_range d (Int.tdiv d Hour) (Int.tmod d Hour) hdm hpos hneg hd1 hd2
  have hhour : |Int.tdiv d Hour| < 2 ^ 53 := by
    rw [abs_lt]; constructor <;> omega
  have hnsec : |Int.tmod d Hour| < 2 ^ 53 := by
    rw [abs_lt]; constructor <;> omega
  have hnsecH : |Int.tmod d Hour| < Hour := by
    rw [abs_lt]; exact ⟨hr1, hr2⟩
  have e1 : F64.ofInt (Int.tdiv d Hour) = ⟨Int.tdiv d Hour, 0⟩ := ofInt_exact _ hhour
  have e2 : F64.ofInt (Int.tmod d Hour) = ⟨Int.tmod d Hour, 0⟩ := ofInt_exact _ hnsec
  have e3 : F64.ofInt (60 * 60 * 1000000000) = ⟨Hour, 0⟩ := ofInt_exact _ (by norm_num)
  have hfrac := div_fraction (Int.tmod d Hour) Hour hH hnsecH
  have hadd := add_bounds ⟨Int.tdiv d Hour, 0⟩ (F64.div ⟨Int.tmod d Hour, 0⟩ ⟨Hour, 0⟩) c hc
  have hv : (⟨Int.tdiv d Hour, 0⟩ : F64).val = (Int.tdiv d Hour : ℚ) := by simp [F64.val]
  simp only [Duration.Hours, e1, e2, e3]
  rw [hv] at hadd
  constructor
  · intro hle
    apply hadd.2
    rcases le_or_lt (Int.tmod d Hour) 0 with hn | hn
    · have hf : (F64.div ⟨Int.tmod d Hour, 0⟩ ⟨Hour, 0⟩).val ≤ 0 := (hfrac.2 hn).2
      have : (Int.tdiv d Hour : ℚ) ≤ c := by exact_mod_cast (hsplit.1 hle).1 hn
      linarith
    · have hf : (F64.div ⟨Int.tmod d Hour, 0⟩ ⟨Hour, 0⟩).val ≤ 1 := (hfrac.1 hn.le).2
      have : (Int.tdiv d Hour : ℚ) + 1 ≤ c := by exact_mod_cast (hsplit.1 hle).2 hn
      linarith
  · intro hle
    apply hadd.1
    rcases le_or_lt 0 (Int.tmod d Hour) with hn | hn
    · have hf : 0 ≤ (F64.div ⟨Int.tmod d Hour, 0⟩ ⟨Hour, 0⟩).val := (hfrac.1 hn).1
      have : (c : ℚ) ≤ Int.tdiv d Hour := by exact_mod_cast (hsplit.2 hle).1 hn
      linarith
    · have hf : -1 ≤ (F64.div ⟨Int.tmod d Hour, 0⟩ ⟨Hour, 0⟩).val := (hfrac.2 hn.le).1
      have : (c : ℚ) + 1 ≤ Int.tdiv d Hour := by exact_mod_cast (hsplit.2 hle).2 hn
      linarith

theorem thresholdHours_bounds (T c : Int) (hc : |c| < 2 ^ 53) (hc24 : |c * 24| < 2 ^ 53) :
    (c ≤ T → ((c * 24 : Int) : ℚ) ≤ (thresholdHours T).val) ∧
    (T ≤ c → (thresholdHours T).val ≤ ((c * 24 : Int) : ℚ)) := by
  have e24 : F64.ofInt 24 = ⟨24, 0⟩ := ofInt_exact _ (by norm_num)
  have v24 : (⟨24, 0⟩ : F64).val = 24 := by simp [F64.val]
  have hT := ofInt_bounds T c hc
  have hm := mul_bounds (F64.ofInt T) ⟨24, 0⟩ (c * 24) hc24
  rw [v24] at hm
  simp only [thresholdHours, e24]
  constructor
  · intro h
    apply hm.1
    have := hT.1 (by exact_mod_cast h)
    push_cast
    linarith
  · intro h
    apply hm.2
    have := hT.2 (by exact_mod_cast h)
    push_cast
    linarith

theorem Sub_range (t u : Int) :
    ∃ d : Int, d = Time.Sub t u ∧ -9223372036854775808 ≤ d ∧ d ≤ 9223372036854775807 := by
  by_cases h1 : t - u > 9223372036854775807
  · exact ⟨9223372036854775807, by simp [Time.Sub, maxDuration, h1], by norm_num, le_rfl⟩
  · by_cases h2 : t - u < -9223372036854775808
    · exact ⟨-9223372036854775808, by simp [Time.Sub, maxDuration, minDuration, h1, h2],
        le_rfl, by norm_num⟩
    · exact ⟨t - u, by simp [Time.Sub, maxDuration, minDuration, h1, h2], by omega, by omega⟩

theorem hours_not_above (d : Int) (hd1 : (-9223372036854775808 : Int) ≤ d)
    (hd2 : d ≤ (9223372036854775807 : Int)) (T : Int)
    (h : d ≤ T * 24 * (3600000000000 : Int)) :
    F64.lt (thresholdHours T) (Duration.Hours d) = false := by
  rw [Bool.eq_false_iff, Ne, lt_iff_val, not_lt]
  rcases le_or_lt T 106752 with h1 | h1
  · rcases le_or_lt (-106752) T with h2 | h2
    · have hcT : |T| < 2 ^ 53 := by rw [abs_lt]; constructor <;> omega
      have hcT24 : |T * 24| < 2 ^ 53 := by rw [abs_lt]; constructor <;> omega
      have hth := thresholdHours_bounds T T hcT hcT24
      have hh := (hours_bounds d hd1 hd2 (T * 24) hcT24).1 h
      have := hth.1 le_rfl
      linarith
    · exfalso
      omega
  · have hth := (thresholdHours_bounds T 106753 (by norm_num) (by norm_num)).1 (by omega)
    have hh := (hours_bounds d hd1 hd2 2562048 (by norm_num)).1 (by omega)
    push_cast at hth hh
    linarith

theorem hours_above (d : Int) (hd1 : (-9223372036854775808 : Int) ≤ d)
    (hd2 : d ≤ (9223372036854775807 : Int)) (T : Int)
    (h : (T * 24 + 1) * (3600000000000 : Int) ≤ d) :
    F64.lt (thresholdHours T) (Duration.Hours d) = true := by
  rw [lt_iff_val]
  rcases le_or_lt T 106752 with h1 | h1
  · rcases le_or_lt (-106752) T with h2 | h2
    · have hcT : |T| < 2 ^ 53 := by rw [abs_lt]; constructor <;> omega
      have hcT24 : |T * 24| < 2 ^ 53 := by rw [abs_lt]; constructor <;> omega
      have hcT25 : |T * 24 + 1| < 2 ^ 53 := by rw [abs_lt]; constructor <;> omega
      have hth := thresholdHours_bounds T T hcT hcT24
      have hh := (hours_bounds d hd1 hd2 (T * 24 + 1) hcT25).2 h
      have := hth.2 le_rfl
      push_cast at hh this
      linarith
    · have hth := (thresholdHours_bounds T (-106753) (by norm_num) (by norm_num)).2 (by omega)
      have hh := (hours_bounds d hd1 hd2 (-2562048) (by norm_num)).2 (by omega)
      push_cast at hth hh
      linarith
  · exfalso
    omega

theorem isOld_eq_false (now start : Time) (threshold : Int)
    (h : Time.Sub now start ≤ threshold * 24 * Hour) : isOld now start threshold = false := by
  obtain ⟨d, hd, h1, h2⟩ := Sub_range now start
  unfold isOld
  rw [← hd] at h ⊢
  exact hours_not_above d h1 h2 threshold h

theorem isOld_eq_true (now start : Time) (threshold : Int)
    (h : (threshold * 24 + 1) * Hour ≤ Time.Sub now start) : isOld now start threshold = true := by
  obtain ⟨d, hd, h1, h2⟩ := Sub_range now start
  unfold isOld
  rw [← hd] at h ⊢
  exact hours_above d h1 h2 threshold h

theorem mem_oldPods (w : World) (threshold : Int) (pods : List Pod) :
    ∀ i j pod, pods[j]? = some pod →
      isOld (w.now (i + j)) pod.Status.StartTime threshold = true →
      pod ∈ oldPods w threshold i pods := by
  induction pods with
  | nil => intro i j pod h; simp at h
  | cons p rest ih =>
    intro i j pod h hold
    rw [oldPods_cons]
    cases j with
    | zero =>
      simp only [List.getElem?_cons_zero, Option.some.injEq] at h
      subst h
      simp only [Nat.add_zero] at hold
      simp [hold]
    | succ k =>
      simp only [List.getElem?_cons_succ] at h
      have hk : i + (k + 1) = (i + 1) + k := by omega
      rw [hk] at hold
      have := ih (i + 1) k pod h hold
      split
      · exact List.mem_cons_of_mem _ this
      · exact this

theorem oldPods_eq_nil (w : World) (threshold : Int) (pods : List Pod) :
    ∀ i, (∀ j pod, pods[j]? = some pod →
      isOld (w.now (i + j)) pod.Status.StartTime threshold = false) →
      oldPods w threshold i pods = [] := by
  induction pods with
  | nil => intro i _; rfl
  | cons p rest ih =>
    intro i h
    rw [oldPods_cons]
    have h0 := h 0 p (by simp)
    simp only [Nat.add_zero] at h0
    simp only [h0, Bool.false_eq_true, if_false]
    apply ih
    intro j pod hj
    have := h (j + 1) pod (by simpa using hj)
    have hk : i + (j + 1) = (i + 1) + j := by omega
    rwa [hk] at this

theorem getDeployments_list_fails (w : World) (ns token command baseURL : String)
    (hvalid : w.validURL (deploymentsURL baseURL ns) = true)
    (hfail : ListFails (w.send [] (newRequest "GET" (deploymentsURL baseURL ns) token none))) :
    (getDeployments w ns token command baseURL).trace =
        [newRequest "GET" (deploymentsURL baseURL ns) token none] ∧
      (getDeployments w ns token command baseURL).exit = Exit.exit1 ∧
      (getDeployments w ns token command baseURL).out ≠ [] := by
  unfold getDeployments
  simp only [hvalid, Bool.true_eq_false, if_false]
  by_cases herr : (w.send [] (newRequest "GET" (deploymentsURL baseURL ns) token none)).err = true
  · simp [herr]
  · simp only [herr, if_false]
    cases hresp : (w.send [] (newRequest "GET" (deploymentsURL baseURL ns) token none)).resp with
    | none => simp
    | some resp =>
      simp only
      by_cases h401 : resp.StatusCode = 401
      · simp [h401]
      · by_cases hread : resp.Body.readErr = true
        · simp [h401, hread]
        · exfalso
          rcases hfail with h | h | ⟨r, hr, h | h⟩
          · exact herr h
          · rw [hresp] at h; simp at h
          · rw [hresp] at hr; simp only [Option.some.injEq] at hr; subst hr; exact h401 h
          · rw [hresp] at hr; simp only [Option.some.injEq] at hr; subst hr; exact hread h

theorem restartOldPods_list_fails (w : World) (ns token : String) (threshold : Int)
    (baseURL : String) (hvalid : w.validURL (podsURL baseURL ns) = true)
    (hfail : ListFails (w.send [] (newRequest "GET" (podsURL baseURL ns) token none))) :
    (restartOldPods w ns token threshold baseURL).trace =
        [newRequest "GET" (podsURL baseURL ns) token none] ∧
      (restartOldPods w ns token threshold baseURL).exit = Exit.exit1 ∧
      (restartOldPods w ns token threshold baseURL).out ≠ [] := by
  unfold restartOldPods
  simp only [hvalid, Bool.true_eq_false, if_false]
  by_cases herr : (w.send [] (newRequest "GET" (podsURL baseURL ns) token none)).err = true
  · simp [herr]
  · simp only [herr, if_false]
    cases hresp : (w.send [] (newRequest "GET" (podsURL baseURL ns) token none)).resp with
    | none => simp
    | some resp =>
      simp only
      by_cases h401 : resp.StatusCode = 401
      · simp [h401]
      · by_cases hread : resp.Body.readErr = true
        · simp [h401, hread]
        · exfalso
          rcases hfail with h | h | ⟨r, hr, h | h⟩
          · exact herr h
          · rw [hresp] at h; simp at h
          · rw [hresp] at hr; simp only [Option.some.injEq] at hr; subst hr; exact h401 h
          · rw [hresp] at hr; simp only [Option.some.injEq] at hr; subst hr; exact hread h

/-! ## float64: bounds that are not whole numbers -/

/-- Rounding never crosses a number `j * 2 ^ g` whose significand `j` has less than 54 bits. -/
theorem round_bounds_dyadic (m e j g : Int) (hj : |j| < 2 ^ 53) :
    ((j : ℚ) * (2 : ℚ) ^ g ≤ (m : ℚ) * (2 : ℚ) ^ e → (j : ℚ) * (2 : ℚ) ^ g ≤ (F64.round m e).val) ∧
    ((m : ℚ) * (2 : ℚ) ^ e ≤ (j : ℚ) * (2 : ℚ) ^ g → (F64.round m e).val ≤ (j : ℚ) * (2 : ℚ) ^ g) := by
  have hP : (0 : ℚ) < (2 : ℚ) ^ g := by positivity
  have hsplit : (2 : ℚ) ^ e = (2 : ℚ) ^ (e - g) * (2 : ℚ) ^ g := by
    rw [← zpow_add₀ (two_ne_zero)]; congr 1; ring
  have hval : (F64.round m e).val = (F64.round m (e - g)).val * (2 : ℚ) ^ g := by
    rw [round_val, round_val, hsplit]; ring
  have key := round_bounds m (e - g) j hj
  rw [hval, hsplit]
  constructor
  · intro h
    have h1 : (j : ℚ) ≤ (m : ℚ) * (2 : ℚ) ^ (e - g) := by
      have : (j : ℚ) * (2 : ℚ) ^ g ≤ ((m : ℚ) * (2 : ℚ) ^ (e - g)) * (2 : ℚ) ^ g := by
        rw [mul_assoc]; exact h
      exact le_of_mul_le_mul_right this hP
    exact mul_le_mul_of_nonneg_right (key.1 h1) hP.le
  · intro h
    have h1 : (m : ℚ) * (2 : ℚ) ^ (e - g) ≤ (j : ℚ) := by
      have : ((m : ℚ) * (2 : ℚ) ^ (e - g)) * (2 : ℚ) ^ g ≤ (j : ℚ) * (2 : ℚ) ^ g := by
        rw [mul_assoc]; exact h
      exact le_of_mul_le_mul_right this hP
    exact mul_le_mul_of_nonneg_right (key.2 h1) hP.le

theorem add_bounds_dyadic (a b : F64) (j g : Int) (hj : |j| < 2 ^ 53) :
    ((j : ℚ) * (2 : ℚ) ^ g ≤ a.val + b.val → (j : ℚ) * (2 : ℚ) ^ g ≤ (F64.add a b).val) ∧
    (a.val + b.val ≤ (j : ℚ) * (2 : ℚ) ^ g → (F64.add a b).val ≤ (j : ℚ) * (2 : ℚ) ^ g) := by
  have ha := align_val a.m a.e (min a.e b.e) (min_le_left _ _)
  have hb := align_val b.m b.e (min a.e b.e) (min_le_right _ _)
  have hsum : ((a.m * 2 ^ (a.e - min a.e b.e).toNat + b.m * 2 ^ (b.e - min a.e b.e).toNat : Int) : ℚ)
      * (2 : ℚ) ^ (min a.e b.e) = a.val + b.val := by
    simp only [F64.val]
    rw [← ha, ← hb]
    push_cast
    ring
  have key := round_bounds_dyadic
    (a.m * 2 ^ (a.e - min a.e b.e).toNat + b.m * 2 ^ (b.e - min a.e b.e).toNat)
    (min a.e b.e) j g hj
  rw [hsum] at key
  exact key

/-- The doubled quotient with its remainder bit, between the bounds that `δ ≤ a` and
`a + δ ≤ b` give when `δ / b` is at least `2 ^ (-g)`. -/
theorem quot_bounds (a b δ g t : Nat) (hb : 0 < b) (hg : g ≤ t) (hδ : b ≤ δ * 2 ^ g) :
    (δ ≤ a → 2 ^ (t - g) * 2 ≤
      2 * (a * 2 ^ t / b) + (if a * 2 ^ t % b = 0 then 0 else 1)) ∧
    (a + δ ≤ b → 2 * (a * 2 ^ t / b) + (if a * 2 ^ t % b = 0 then 0 else 1) ≤
      (2 ^ g - 1) * 2 ^ (t - g) * 2) := by
  have ht : 2 ^ t = 2 ^ g * 2 ^ (t - g) := by
    rw [← pow_add]; congr 1; omega
  have hG : 0 < 2 ^ g := by positivity
  constructor
  · intro ha
    have h1 : 2 ^ (t - g) * b ≤ a * 2 ^ t := by
      calc 2 ^ (t - g) * b ≤ 2 ^ (t - g) * (δ * 2 ^ g) := Nat.mul_le_mul_left _ hδ
        _ ≤ 2 ^ (t - g) * (a * 2 ^ g) := Nat.mul_le_mul_left _ (Nat.mul_le_mul_right _ ha)
        _ = a * 2 ^ t := by rw [ht]; ring
    have h2 : 2 ^ (t - g) ≤ a * 2 ^ t / b := (Nat.le_div_iff_mul_le hb).2 h1
    split_ifs <;> omega
  · intro ha
    have hC : (2 ^ g - 1) * 2 ^ (t - g) * b + 2 ^ (t - g) * b = 2 ^ g * 2 ^ (t - g) * b := by
      have : 2 ^ g - 1 + 1 = 2 ^ g := by omega
      calc (2 ^ g - 1) * 2 ^ (t - g) * b + 2 ^ (t - g) * b
          = (2 ^ g - 1 + 1) * (2 ^ (t - g) * b) := by ring
        _ = 2 ^ g * 2 ^ (t - g) * b := by rw [this]; ring
    have h1 : a * 2 ^ t + 2 ^ (t - g) * b ≤ 2 ^ g * 2 ^ (t - g) * b := by
      calc a * 2 ^ t + 2 ^ (t - g) * b
          ≤ a * 2 ^ t + 2 ^ (t - g) * (δ * 2 ^ g) :=
            Nat.add_le_add_left (Nat.mul_le_mul_left _ hδ) _
        _ = (a + δ) * (2 ^ g * 2 ^ (t - g)) := by rw [ht]; ring
        _ ≤ b * (2 ^ g * 2 ^ (t - g)) := Nat.mul_le_mul_right _ ha
        _ = 2 ^ g * 2 ^ (t - g) * b := by ring
    have h2 : a * 2 ^ t ≤ (2 ^ g - 1) * 2 ^ (t - g) * b := by omega
    have h3 : a * 2 ^ t / b ≤ (2 ^ g - 1) * 2 ^ (t - g) := by
      calc a * 2 ^ t / b ≤ (2 ^ g - 1) * 2 ^ (t - g) * b / b := Nat.div_le_div_right h2
        _ = (2 ^ g - 1) * 2 ^ (t - g) := Nat.mul_div_cancel _ hb
    have hdm := Nat.div_add_mod (a * 2 ^ t) b
    by_cases hr : a * 2 ^ t % b = 0
    · simp only [hr, if_true]; omega
    · simp only [hr, if_false]
      have hlt : a * 2 ^ t / b < (2 ^ g - 1) * 2 ^ (t - g) := by
        by_contra hc
        have heq : a * 2 ^ t / b = (2 ^ g - 1) * 2 ^ (t - g) := by omega
        rw [heq] at hdm
        have : b * ((2 ^ g - 1) * 2 ^ (t - g)) = (2 ^ g - 1) * 2 ^ (t - g) * b := by ring
        omega
      omega

/-- The quotient of a remainder by the hour, when the remainder is at least `δ` away from a
multiple of the hour and `δ` hours-fractions is at least `2 ^ (-g)`. -/
theorem div_fraction_fine (n H : Int) (hH : 0 < H) (hn : |n| < H) (g : Nat) (δ : Int)
    (hg : g ≤ 53) (hδ0 : 0 ≤ δ) (hδ : H ≤ δ * 2 ^ g) :
    (δ ≤ n → (2 : ℚ) ^ (-(g : Int)) ≤ (F64.div ⟨n, 0⟩ ⟨H, 0⟩).val) ∧
    (n ≤ 0 → δ - H ≤ n → -(1 - (2 : ℚ) ^ (-(g : Int))) ≤ (F64.div ⟨n, 0⟩ ⟨H, 0⟩).val) := by
  have hone : (2 : ℚ) ^ (-(g : Int)) ≤ 1 := by
    rw [zpow_neg, zpow_natCast]
    exact inv_le_one_of_one_le₀ (one_le_pow₀ (by norm_num))
  by_cases h0 : n = 0
  · subst h0
    constructor
    · intro h
      have hδz : δ = 0 := by omega
      subst hδz
      omega
    · intro _ _
      simp only [F64.div, F64.val, true_or, if_true, Int.cast_zero, zero_mul]
      linarith
  · have hH0 : H ≠ 0 := by omega
    have hsH : H.sign = 1 := Int.sign_eq_one_of_pos hH
    have hHpos : 0 < H.natAbs := by omega
    have hδn : H.natAbs ≤ δ.natAbs * 2 ^ g := by
      zify
      rw [abs_of_pos hH, abs_of_nonneg hδ0]
      exact hδ
    obtain ⟨t, ht⟩ : ∃ t : Nat, t = 55 + bitLen H.natAbs H.natAbs := ⟨_, rfl⟩
    have hgt : g ≤ t := by omega
    have hq := quot_bounds n.natAbs H.natAbs δ.natAbs g t hHpos hgt hδn
    obtain ⟨N, hN⟩ : ∃ N : Nat, N = 2 * (n.natAbs * 2 ^ t / H.natAbs) +
        (if n.natAbs * 2 ^ t % H.natAbs = 0 then 0 else 1) := ⟨_, rfl⟩
    rw [← hN] at hq
    have hdiv : F64.div ⟨n, 0⟩ ⟨H, 0⟩ =
        F64.round (n.sign * H.sign * (N : Int)) ((0 : Int) - 0 - (t : Int) - 1) := by
      simp only [F64.div, h0, hH0, or_self, if_false, hN, ht]
    have hE : (2 : ℚ) ^ ((0 : Int) - 0 - (t : Int) - 1) = ((2 : ℚ) ^ (t + 1))⁻¹ := by
      have he : (0 : Int) - 0 - (t : Int) - 1 = -((t + 1 : Nat) : Int) := by push_cast; ring
      rw [he, zpow_neg, zpow_natCast]
    have hpow : (2 : ℚ) ^ (t + 1) = (2 : ℚ) ^ g * ((2 : ℚ) ^ (t - g) * 2) := by
      rw [← pow_succ, ← pow_add]; congr 1; omega
    have hgi : (2 : ℚ) ^ (-(g : Int)) = ((2 : ℚ) ^ (t - g) * 2) * ((2 : ℚ) ^ (t + 1))⁻¹ := by
      rw [zpow_neg, zpow_natCast, hpow]
      field_simp
    have hinv : (0 : ℚ) < ((2 : ℚ) ^ (t + 1))⁻¹ := by positivity
    rw [hdiv, hsH]
    constructor
    · intro hpos
      have hnpos : 0 < n := by omega
      have hs : n.sign = 1 := Int.sign_eq_one_of_pos hnpos
      have hNat : 2 ^ (t - g) * 2 ≤ N := hq.1 (by omega)
      have hQ : ((2 : ℚ) ^ (t - g) * 2) ≤ (N : ℚ) := by exact_mod_cast hNat
      have key := (round_bounds_dyadic (1 * 1 * (N : Int)) ((0 : Int) - 0 - (t : Int) - 1)
        1 (-(g : Int)) (by norm_num)).1
      rw [hs]
      have := key (by
        rw [hE, hgi]
        push_cast
        simp only [one_mul]
        exact mul_le_mul_of_nonneg_right hQ hinv.le)
      simpa using this
    · intro hneg hlow
      have hnneg : n < 0 := by omega
      have hs : n.sign = -1 := Int.sign_eq_neg_one_of_neg hnneg
      have hNat : N ≤ (2 ^ g - 1) * 2 ^ (t - g) * 2 := hq.2 (by omega)
      have h1g : 1 ≤ 2 ^ g := Nat.one_le_two_pow
      have hQ : (N : ℚ) ≤ ((2 : ℚ) ^ g - 1) * (2 : ℚ) ^ (t - g) * 2 := by
        have : ((N : Nat) : ℚ) ≤ (((2 ^ g - 1) * 2 ^ (t - g) * 2 : Nat) : ℚ) := by
          exact_mod_cast hNat
        rw [Nat.cast_mul, Nat.cast_mul, Nat.cast_sub h1g] at this
        push_cast at this
        exact this
      have hjb : |(-((2 : Int) ^ g - 1))| < 2 ^ 53 := by
        have h2 : (2 : Int) ^ g ≤ 2 ^ 53 := pow_le_pow_right₀ (by norm_num) hg
        have h3 : (1 : Int) ≤ 2 ^ g := one_le_pow₀ (by norm_num)
        rw [abs_lt]
        constructor <;> omega
      have key := (round_bounds_dyadic (-1 * 1 * (N : Int)) ((0 : Int) - 0 - (t : Int) - 1)
        (-((2 : Int) ^ g - 1)) (-(g : Int)) hjb).1
      rw [hs]
      have hgoal : -(1 - (2 : ℚ) ^ (-(g : Int))) =
          ((-((2 : Int) ^ g - 1) : Int) : ℚ) * (2 : ℚ) ^ (-(g : Int)) := by
        push_cast
        rw [zpow_neg, zpow_natCast]
        field_simp
      rw [hgoal]
      apply key
      rw [hE, hgi]
      push_cast
      have hm := mul_le_mul_of_nonneg_right hQ hinv.le
      have hgq : (0 : ℚ) < (2 : ℚ) ^ g := by positivity
      linarith

theorem hour_split_fine (d q r K δ : Int) (hdm : d = q * 3600000000000 + r)
    (hpos : 0 ≤ d → 0 ≤ r ∧ r < 3600000000000)
    (hneg : d ≤ 0 → -3600000000000 < r ∧ r ≤ 0)
    (hδ0 : 0 < δ) (hδH : δ ≤ 3600000000000) (h : K * 3600000000000 + δ ≤ d) :
    (0 ≤ r → K + 1 ≤ q ∨ (q = K ∧ δ ≤ r)) ∧
    (r < 0 → K + 2 ≤ q ∨ (q = K + 1 ∧ δ - 3600000000000 ≤ r)) := by
  rcases le_total 0 d with h0 | h0
  · have := hpos h0
    refine ⟨fun _ => ?_, fun _ => ?_⟩ <;> omega
  · have := hneg h0
    refine ⟨fun _ => ?_, fun _ => ?_⟩ <;> omega

/-- A duration at least `δ` nanoseconds above `K` hours reads, in `Hours`, at least
`K + 2 ^ (-g)`, when `δ` nanoseconds are at least `2 ^ (-g)` hours and `K + 2 ^ (-g)` has
less than 54 bits. -/
theorem hours_fine (d : Int) (hd1 : (-9223372036854775808 : Int) ≤ d)
    (hd2 : d ≤ (9223372036854775807 : Int)) (K : Int) (g : Nat) (δ : Int)
    (hg : g ≤ 53) (hδ0 : 0 < δ) (hδH : δ ≤ 3600000000000)
    (hδ : (3600000000000 : Int) ≤ δ * 2 ^ g) (hK : |K * 2 ^ g + 1| < 2 ^ 53)
    (h : K * (3600000000000 : Int) + δ ≤ d) :
    (K : ℚ) + (2 : ℚ) ^ (-(g : Int)) ≤ (Duration.Hours d).val := by
  have hH : (0 : Int) < Hour := by decide
  obtain ⟨hdm, hpos, hneg⟩ := tmod_facts d Hour hH
  have hsplit := hour_split_fine d (Int.tdiv d Hour) (Int.tmod d Hour) K δ hdm hpos hneg
    hδ0 hδH h
  obtain ⟨⟨hq1, hq2⟩, hr1, hr2⟩ :=
    hour_range d (Int.tdiv d Hour) (Int.tmod d Hour) hdm hpos hneg hd1 hd2
  have hhour : |Int.tdiv d Hour| < 2 ^ 53 := by
    rw [abs_lt]; constructor <;> omega
  have hnsec : |Int.tmod d Hour| < 2 ^ 53 := by
    rw [abs_lt]; constructor <;> omega
  have hnsecH : |Int.tmod d Hour| < Hour := by
    rw [abs_lt]; exact ⟨hr1, hr2⟩
  have e1 : F64.ofInt (Int.tdiv d Hour) = ⟨Int.tdiv d Hour, 0⟩ := ofInt_exact _ hhour
  have e2 : F64.ofInt (Int.tmod d Hour) = ⟨Int.tmod d Hour, 0⟩ := ofInt_exact _ hnsec
  have e3 : F64.ofInt (60 * 60 * 1000000000) = ⟨Hour, 0⟩ := ofInt_exact _ (by norm_num)
  have hfrac := div_fraction (Int.tmod d Hour) Hour hH hnsecH
  have hfine := div_fraction_fine (Int.tmod d Hour) Hour hH hnsecH g δ hg hδ0.le hδ
  have hadd := add_bounds_dyadic ⟨Int.tdiv d Hour, 0⟩
    (F64.div ⟨Int.tmod d Hour, 0⟩ ⟨Hour, 0⟩) (K * 2 ^ g + 1) (-(g : Int)) hK
  have hv : (⟨Int.tdiv d Hour, 0⟩ : F64).val = (Int.tdiv d Hour : ℚ) := by simp [F64.val]
  have hc : ((K * 2 ^ g + 1 : Int) : ℚ) * (2 : ℚ) ^ (-(g : Int)) =
      (K : ℚ) + (2 : ℚ) ^ (-(g : Int)) := by
    push_cast
    rw [zpow_neg, zpow_natCast]
    field_simp
  have hsmall : (2 : ℚ) ^ (-(g : Int)) ≤ 1 := by
    rw [zpow_neg, zpow_natCast]
    exact inv_le_one_of_one_le₀ (one_le_pow₀ (by norm_num))
  simp only [Duration.Hours, e1, e2, e3]
  rw [hv, hc] at hadd
  apply hadd.1
  rcases le_or_lt 0 (Int.tmod d Hour) with hn | hn
  · rcases hsplit.1 hn with hq | ⟨hq, hr⟩
    · have hf : 0 ≤ (F64.div ⟨Int.tmod d Hour, 0⟩ ⟨Hour, 0⟩).val := (hfrac.1 hn).1
      have : (K : ℚ) + 1 ≤ Int.tdiv d Hour := by exact_mod_cast hq
      linarith
    · have hf := hfine.1 hr
      have : (Int.tdiv d Hour : ℚ) = K := by exact_mod_cast hq
      linarith
  · rcases hsplit.2 hn with hq | ⟨hq, hr⟩
    · have hf : -1 ≤ (F64.div ⟨Int.tmod d Hour, 0⟩ ⟨Hour, 0⟩).val := (hfrac.2 hn.le).1
      have : (K : ℚ) + 2 ≤ Int.tdiv d Hour := by exact_mod_cast hq
      linarith
    · have hf := hfine.2 hn.le hr
      have : (Int.tdiv d Hour : ℚ) = K + 1 := by exact_mod_cast hq
      linarith

/-- What `Sub` returns, case by case. -/
theorem Sub_cases (t u : Int) :
    ∃ d : Int, d = Time.Sub t u ∧ -9223372036854775808 ≤ d ∧ d ≤ 9223372036854775807 ∧
      (9223372036854775807 < t - u → d = 9223372036854775807) ∧
      (t - u < -9223372036854775808 → d = -9223372036854775808) ∧
      (-9223372036854775808 ≤ t - u → t - u ≤ 9223372036854775807 → d = t - u) := by
  by_cases h1 : t - u > 9223372036854775807
  · refine ⟨9223372036854775807, by simp [Time.Sub, maxDuration, h1], by norm_num, le_rfl,
      fun _ => rfl, fun h => ?_, fun _ h => ?_⟩ <;> omega
  · by_cases h2 : t - u < -9223372036854775808
    · refine ⟨-9223372036854775808, by simp [Time.Sub, maxDuration, minDuration, h1, h2],
        le_rfl, by norm_num, fun h => ?_, fun _ => rfl, fun h _ => ?_⟩ <;> omega
    · exact ⟨t - u, by simp [Time.Sub, maxDuration, minDuration, h1, h2], by omega, by omega,
        fun h => by omega, fun h => by omega, fun _ _ => rfl⟩

/-- A threshold of at most 106751 days: a pod at least 2000 nanoseconds older than the
threshold passes the test. -/
theorem isOld_of_two_micro (now start T : Int) (hT : T ≤ 106751)
    (h : T * 24 * 3600000000000 + 2000 ≤ now - start) : isOld now start T = true := by
  obtain ⟨d, hd, hd1, hd2, hmax, hmin, hmid⟩ := Sub_cases now start
  rw [isOld, ← hd]
  rcases le_or_lt (-106752) T with h2 | h2
  · rw [lt_iff_val]
    have hcT : |T| < 2 ^ 53 := by rw [abs_lt]; constructor <;> omega
    have hcT24 : |T * 24| < 2 ^ 53 := by rw [abs_lt]; constructor <;> omega
    have hth := (thresholdHours_bounds T T hcT hcT24).2 le_rfl
    have hge : T * 24 * 3600000000000 + 2000 ≤ d := by
      rcases lt_or_le 9223372036854775807 (now - start) with c1 | c1
      · have := hmax c1; omega
      · rcases lt_or_le (now - start) (-9223372036854775808) with c2 | c2
        · have := hmin c2; omega
        · have := hmid c2 c1; omega
    have hh := hours_fine d hd1 hd2 (T * 24) 31 2000 (by norm_num) (by norm_num) (by norm_num)
      (by norm_num) (by rw [abs_lt]; constructor <;> omega) hge
    have hpos : (0 : ℚ) < (2 : ℚ) ^ (-(31 : Int)) := by positivity
    push_cast at hth hh
    linarith
  · exact hours_above d hd1 hd2 T (by omega)

/-- A threshold of at most 85 days in absolute value: the test is exact. -/
theorem isOld_exact (now start T : Int) (hT1 : -85 ≤ T) (hT2 : T ≤ 85) :
    isOld now start T = true ↔ T * 24 * 3600000000000 < now - start := by
  obtain ⟨d, hd, hd1, hd2, hmax, hmin, hmid⟩ := Sub_cases now start
  constructor
  · intro hold
    by_contra hc
    have hle : now - start ≤ T * 24 * 3600000000000 := by omega
    have hdle : d ≤ T * 24 * 3600000000000 := by
      rcases lt_or_le (now - start) (-9223372036854775808) with c2 | c2
      · have := hmin c2; omega
      · have := hmid c2 (by omega); omega
    have := hours_not_above d hd1 hd2 T hdle
    rw [isOld, ← hd, this] at hold
    exact Bool.false_ne_true hold
  · intro hlt
    rw [isOld, ← hd, lt_iff_val]
    have hcT : |T| < 2 ^ 53 := by rw [abs_lt]; constructor <;> omega
    have hcT24 : |T * 24| < 2 ^ 53 := by rw [abs_lt]; constructor <;> omega
    have hth := (thresholdHours_bounds T T hcT hcT24).2 le_rfl
    have hge : T * 24 * 3600000000000 + 1 ≤ d := by
      rcases lt_or_le 9223372036854775807 (now - start) with c1 | c1
      · have := hmax c1; omega
      · have := hmid (by omega) c1; omega
    have hh := hours_fine d hd1 hd2 (T * 24) 42 1 (by norm_num) (by norm_num) (by norm_num)
      (by norm_num) (by rw [abs_lt]; constructor <;> omega) hge
    have hpos : (0 : ℚ) < (2 : ℚ) ^ (-(42 : Int)) := by positivity
    push_cast at hth hh
    linarith

/-- A threshold of at least -106751 days: a pod not older than the threshold fails the
test. -/
theorem isOld_false_of_le (now start T : Int) (hT : -106751 ≤ T)
    (h : now - start ≤ T * 24 * 3600000000000) : isOld now start T = false := by
  obtain ⟨d, hd, hd1, hd2, hmax, hmin, hmid⟩ := Sub_cases now start
  rw [isOld, ← hd]
  apply hours_not_above d hd1 hd2 T
  rcases lt_or_le 9223372036854775807 (now - start) with c1 | c1
  · have := hmax c1; omega
  · rcases lt_or_le (now - start) (-9223372036854775808) with c2 | c2
    · have := hmin c2; omega
    · have := hmid c2 c1; omega

/-- A threshold of 106752 days or more is past the longest duration: no pod passes. -/
theorem isOld_false_of_large (now start T : Int) (hT : 106752 ≤ T) :
    isOld now start T = false := by
  obtain ⟨d, hd, hd1, hd2, _, _, _⟩ := Sub_cases now start
  rw [isOld, ← hd]
  exact hours_not_above d hd1 hd2 T (by omega)

/-- A threshold of -106752 days or less is below the shortest duration: every pod
passes. -/
theorem isOld_true_of_small (now start T : Int) (hT : T ≤ -106752) :
    isOld now start T = true := by
  obtain ⟨d, hd, hd1, hd2, _, _, _⟩ := Sub_cases now start
  rw [isOld, ← hd]
  rcases le_or_lt (-106752) T with h2 | h2
  · rw [lt_iff_val]
    have hcT : |T| < 2 ^ 53 := by rw [abs_lt]; constructor <;> omega
    have hcT24 : |T * 24| < 2 ^ 53 := by rw [abs_lt]; constructor <;> omega
    have hth := (thresholdHours_bounds T T hcT hcT24).2 le_rfl
    have hh := hours_fine d hd1 hd2 (T * 24) 31 2000 (by norm_num) (by norm_num) (by norm_num)
      (by norm_num) (by rw [abs_lt]; constructor <;> omega) (by omega)
    have hpos : (0 : ℚ) < (2 : ℚ) ^ (-(31 : Int)) := by positivity
    push_cast at hth hh
    linarith
  · exact hours_above d hd1 hd2 T (by omega)

/-- A threshold of at most 3 days: a pod older than 3 days passes the test. -/
theorem isOld_of_older_than_three (now start T : Int) (hT : T ≤ 3)
    (h : 3 * 24 * 3600000000000 < now - start) : isOld now start T = true := by
  rcases le_or_lt (-85) T with h1 | h1
  · exact (isOld_exact now start T h1 (by omega)).2 (by omega)
  · exact isOld_of_two_micro now start T (by omega) (by omega)

/-- The requests of `restartOldPods` once its list request is answered: the list `GET`
and the `DELETE` of each pod that passes the age test at its turn. -/
theorem restartOldPods_trace (w : World) (hw : w.Responsive) (ns token : String)
    (threshold : Int) (baseURL : String) (resp : Response)
    (hlist : w.send [] (newRequest "GET" (podsURL baseURL ns) token none) = ⟨some resp, false⟩)
    (h401 : resp.StatusCode ≠ 401) :
    (restartOldPods w ns token threshold baseURL).trace =
      newRequest "GET" (podsURL baseURL ns) token none ::
        (oldPods w threshold 0 resp.Body.podList.value.Items).map
          (deleteRequest (podsURL baseURL ns) token) := by
  rw [restartOldPods_eq w hw ns token threshold baseURL resp hlist h401]
  split
  · rename_i h0
    have : resp.Body.podList.value.Items = [] := List.length_eq_zero.1 h0
    rw [this, oldPods_nil]
    rfl
  · rfl

/-! ## Worlds used as examples -/

theorem constWorld_responsive (names : List String) (replicas : Int) (pods : List Pod)
    (err : Bool) (now : Time) : (constWorld (bodyOf names replicas pods err) now).Responsive :=
  ⟨fun _ => rfl, fun _ _ => ⟨_, rfl, rfl⟩⟩

theorem urlWorld_responsive (replicas : String → Int) : (urlWorld replicas).Responsive :=
  ⟨fun _ => rfl, fun _ _ => ⟨_, rfl, rfl⟩⟩

/-! ## Scaling -/

/-- C1, as the code has it.  When the server answers every request with a readable
body, `scalePods` with the command "scale-up" returns after issuing exactly two
requests per deployment name, in list order: the `GET` of the scale URL of the name,
without body, then the `PUT` to the same URL whose body is the scale resource decoded
from the answer to that `GET` with `spec.replicas` incremented by Go's `++` on `int`:
the fetched count plus 1 for every count below 9223372036854775807, and
-9223372036854775808 for that count.  An empty list yields no request. -/
theorem scalePods_scale_up (w : World) (hw : w.Responsive) (hist : List Request)
    (deployNames : List String) (ns token baseURL : String) :
    (scalePods w hist deployNames ns token "scale-up" baseURL).exit = Exit.returned ∧
    (scalePods w hist deployNames ns token "scale-up" baseURL).trace.length =
      2 * deployNames.length ∧
    (∀ i (hi : i < deployNames.length), ∃ resp,
      (w.send (hist ++ (scalePods w hist deployNames ns token "scale-up" baseURL).trace.take (2 * i))
        ⟨"GET", scaleURL baseURL ns deployNames[i], [("Authorization", "Bearer " ++ token)],
          none⟩).resp = some resp ∧
      (scalePods w hist deployNames ns token "scale-up" baseURL).trace[2 * i]? =
        some ⟨"GET", scaleURL baseURL ns deployNames[i],
          [("Authorization", "Bearer " ++ token)], none⟩ ∧
      (scalePods w hist deployNames ns token "scale-up" baseURL).trace[2 * i + 1]? =
        some ⟨"PUT", scaleURL baseURL ns deployNames[i],
          [("Authorization", "Bearer " ++ token)],
          some { resp.Body.scale.value with
            Spec := ⟨wrapInt (resp.Body.scale.value.Spec.Replicas + 1)⟩ }⟩) ∧
    (∀ n : Int, -9223372036854775808 ≤ n → n < 9223372036854775807 →
      wrapInt (n + 1) = n + 1) ∧
    wrapInt (9223372036854775807 + 1) = -9223372036854775808 := by
  have h := scalePodsLoop_scale_up w hw ns token baseURL deployNames hist
  have e : (scalePods w hist deployNames ns token "scale-up" baseURL).trace =
      (scalePodsLoop w ns token "scale-up" baseURL hist deployNames).trace := by
    simp [scalePods, Run.after_trace]
  refine ⟨by simpa [scalePods, Run.after_exit] using h.1, by rw [e]; exact h.2.1, ?_, ?_, ?_⟩
  · rw [e]; exact h.2.2
  · intro n h1 h2
    apply wrapInt_of_range
    · unfold minInt; omega
    · unfold maxInt; omega
  · decide

/-- Witness of C1: two deployments on a server whose scale resources hold 2 replicas;
each gets its `GET` and then the `PUT` of 3 replicas. -/
theorem scalePods_scale_up_witness :
    (constWorld (bodyOf [] 2 [] false) 0).Responsive ∧
    (scalePods (constWorld (bodyOf [] 2 [] false) 0) [] ["a", "b"] "ns" "tok" "scale-up"
      "https://osenp.mlcinsurance.com.au:8443").trace.length = 2 * ["a", "b"].length ∧
    (scalePods (constWorld (bodyOf [] 2 [] false) 0) [] ["a", "b"] "ns" "tok" "scale-up"
        "https://osenp.mlcinsurance.com.au:8443").trace.map
      (fun q => (q.method, q.url, q.header, q.body.map fun s => s.Spec.Replicas)) =
      [("GET",
          "https://osenp.mlcinsurance.com.au:8443/oapi/v1/namespaces/ns/deploymentconfigs/a/scale",
          [("Authorization", "Bearer tok")], none),
        ("PUT",
          "https://osenp.mlcinsurance.com.au:8443/oapi/v1/namespaces/ns/deploymentconfigs/a/scale",
          [("Authorization", "Bearer tok")], some 3),
        ("GET",
          "https://osenp.mlcinsurance.com.au:8443/oapi/v1/namespaces/ns/deploymentconfigs/b/scale",
          [("Authorization", "Bearer tok")], none),
        ("PUT",
          "https://osenp.mlcinsurance.com.au:8443/oapi/v1/namespaces/ns/deploymentconfigs/b/scale",
          [("Authorization", "Bearer tok")], some 3)] :=
  ⟨constWorld_responsive _ _ _ _ _,
    (scalePods_scale_up _ (constWorld_responsive _ _ _ _ _) [] ["a", "b"] "ns" "tok"
      "https://osenp.mlcinsurance.com.au:8443").2.1, by decide⟩

/-- Counterexample to C1.  The scale resource fetched holds 9223372036854775807
replicas, the largest `int`: the `PUT` of "scale-up" carries -9223372036854775808, not
the fetched count plus 1. -/
theorem scale_up_wraps_at_largest_int :
    (scalePods (constWorld (bodyOf [] 9223372036854775807 [] false) 0) [] ["a"] "ns" "tok"
        "scale-up" "https://osenp.mlcinsurance.com.au:8443").trace.map
      (fun q => (q.method, q.url, q.body.map fun s => s.Spec.Replicas)) =
      [("GET",
          "https://osenp.mlcinsurance.com.au:8443/oapi/v1/namespaces/ns/deploymentconfigs/a/scale",
          none),
        ("PUT",
          "https://osenp.mlcinsurance.com.au:8443/oapi/v1/namespaces/ns/deploymentconfigs/a/scale",
          some (-9223372036854775808))] ∧
    (-9223372036854775808 : Int) ≠ 9223372036854775807 + 1 := by
  constructor <;> decide

/-- C2, as the code has it.  When the server answers every request with a readable
body, `scalePods` with the command "scale-down" returns after issuing one `GET` per
deployment name, in list order.  For every such `GET`, with `n` the `spec.replicas`
decoded from its answer: if `n = 0` the request that follows, if any, is the `GET` of
the next deployment (no `PUT` for this one); otherwise the request that follows is the
`PUT` to the same URL whose body is the decoded scale resource with `spec.replicas`
decremented by Go's `--` on `int`: `n - 1` for every `n` above -9223372036854775808,
and 9223372036854775807 for that count.  Every `PUT` directly follows a `GET`, so a
deployment gets at most one.  For a count `n > 0` the count sent is not below zero. -/
theorem scalePods_scale_down (w : World) (hw : w.Responsive) (hist : List Request)
    (deployNames : List String) (ns token baseURL : String) :
    (scalePods w hist deployNames ns token "scale-down" baseURL).exit = Exit.returned ∧
    ((scalePods w hist deployNames ns token "scale-down" baseURL).trace.filter
        (fun q => q.method = "GET")).map (fun q => q.url) =
      deployNames.map (scaleURL baseURL ns) ∧
    (∀ k req, (scalePods w hist deployNames ns token "scale-down" baseURL).trace[k]? = some req →
      req.method = "GET" →
      ∃ resp,
        (w.send (hist ++ (scalePods w hist deployNames ns token "scale-down" baseURL).trace.take k)
          req).resp = some resp ∧
        (resp.Body.scale.value.Spec.Replicas = 0 →
          ∀ q, (scalePods w hist deployNames ns token "scale-down" baseURL).trace[k + 1]? = some q →
            q.method = "GET") ∧
        (resp.Body.scale.value.Spec.Replicas ≠ 0 →
          (scalePods w hist deployNames ns token "scale-down" baseURL).trace[k + 1]? =
            some ⟨"PUT", req.url, [("Authorization", "Bearer " ++ token)],
              some { resp.Body.scale.value with
                Spec := ⟨wrapInt (resp.Body.scale.value.Spec.Replicas - 1)⟩ }⟩)) ∧
    (∀ k q, (scalePods w hist deployNames ns token "scale-down" baseURL).trace[k]? = some q →
      q.method = "PUT" →
      ∃ j g, k = j + 1 ∧
        (scalePods w hist deployNames ns token "scale-down" baseURL).trace[j]? = some g ∧
        g.method = "GET") ∧
    (∀ n : Int, -9223372036854775808 < n → n ≤ 9223372036854775807 →
      wrapInt (n - 1) = n - 1) ∧
    wrapInt (-9223372036854775808 - 1) = 9223372036854775807 ∧
    (∀ n : Int, 0 < n → n ≤ 9223372036854775807 → 0 ≤ wrapInt (n - 1)) := by
  have h := scalePodsLoop_scale_down w hw ns token baseURL deployNames hist
  have e : (scalePods w hist deployNames ns token "scale-down" baseURL).trace =
      (scalePodsLoop w ns token "scale-down" baseURL hist deployNames).trace := by
    simp [scalePods, Run.after_trace]
  have hwrap : ∀ n : Int, -9223372036854775808 < n → n ≤ 9223372036854775807 →
      wrapInt (n - 1) = n - 1 := by
    intro n h1 h2
    apply wrapInt_of_range
    · unfold minInt; omega
    · unfold maxInt; omega
  refine ⟨by simpa [scalePods, Run.after_exit] using h.1, by rw [e]; exact h.2.1, ?_, ?_,
    hwrap, by decide, ?_⟩
  · rw [e]; exact h.2.2.1
  · rw [e]; exact h.2.2.2
  · intro n h1 h2
    rw [hwrap n (by omega) h2]
    omega

/-- Witness of C2: the deployment "a" holds no replica and gets no `PUT`, the
deployment "b" holds 2 replicas and gets the `PUT` of 1 replica. -/
theorem scalePods_scale_down_witness :
    (urlWorld fun url =>
      if url =
        "https://osenp.mlcinsurance.com.au:8443/oapi/v1/namespaces/ns/deploymentconfigs/b/scale"
      then 2 else 0).Responsive ∧
    (scalePods (urlWorld fun url =>
        if url =
          "https://osenp.mlcinsurance.com.au:8443/oapi/v1/namespaces/ns/deploymentconfigs/b/scale"
        then 2 else 0) [] ["a", "b"] "ns" "tok" "scale-down"
      "https://osenp.mlcinsurance.com.au:8443").exit = Exit.returned ∧
    (scalePods (urlWorld fun url =>
        if url =
          "https://osenp.mlcinsurance.com.au:8443/oapi/v1/namespaces/ns/deploymentconfigs/b/scale"
        then 2 else 0) [] ["a", "b"] "ns" "tok" "scale-down"
        "https://osenp.mlcinsurance.com.au:8443").trace.map
      (fun q => (q.method, q.url, q.header, q.body.map fun s => s.Spec.Replicas)) =
      [("GET",
          "https://osenp.mlcinsurance.com.au:8443/oapi/v1/namespaces/ns/deploymentconfigs/a/scale",
          [("Authorization", "Bearer tok")], none),
        ("GET",
          "https://osenp.mlcinsurance.com.au:8443/oapi/v1/namespaces/ns/deploymentconfigs/b/scale",
          [("Authorization", "Bearer tok")], none),
        ("PUT",
          "https://osenp.mlcinsurance.com.au:8443/oapi/v1/namespaces/ns/deploymentconfigs/b/scale",
          [("Authorization", "Bearer tok")], some 1)] :=
  ⟨urlWorld_responsive _,
    (scalePods_scale_down _ (urlWorld_responsive _) [] ["a", "b"] "ns" "tok"
      "https://osenp.mlcinsurance.com.au:8443").1, by decide⟩

/-- Counterexample to C2.  The scale resource fetched holds -9223372036854775808
replicas, the smallest `int`: the `PUT` of "scale-down" carries 9223372036854775807,
not the fetched count minus 1. -/
theorem scale_down_wraps_at_smallest_int :
    (scalePods (constWorld (bodyOf [] (-9223372036854775808) [] false) 0) [] ["a"] "ns" "tok"
        "scale-down" "https://osenp.mlcinsurance.com.au:8443").trace.map
      (fun q => (q.method, q.url, q.body.map fun s => s.Spec.Replicas)) =
      [("GET",
          "https://osenp.mlcinsurance.com.au:8443/oapi/v1/namespaces/ns/deploymentconfigs/a/scale",
          none),
        ("PUT",
          "https://osenp.mlcinsurance.com.au:8443/oapi/v1/namespaces/ns/deploymentconfigs/a/scale",
          some 9223372036854775807)] ∧
    (9223372036854775807 : Int) ≠ -9223372036854775808 - 1 := by
  constructor <;> decide

/-- C10. With `up` and `down` the replica counts a deployment holds once `scalePods`
has processed it with "scale-up" and with "scale-down": on the counts `n` of an `int`,
`up n = n + 1` below the largest `int` and `down n = n` if `n = 0`, else `n - 1`;
scaling down after scaling up restores every `n ≥ 0`, scaling up after scaling down
restores every `n > 0`, and from 0 it gives 1. -/
theorem replicas_round_trip :
    (∀ n : Int, 0 ≤ n → n ≤ maxInt →
      replicasAfter "scale-down" (replicasAfter "scale-up" n) = n) ∧
    (∀ n : Int, 0 < n → n ≤ maxInt →
      replicasAfter "scale-up" (replicasAfter "scale-down" n) = n) ∧
    replicasAfter "scale-up" (replicasAfter "scale-down" 0) = 1 ∧
    (∀ n : Int, 0 ≤ n → n < maxInt → replicasAfter "scale-up" n = n + 1) ∧
    (∀ n : Int, 0 ≤ n → n ≤ maxInt →
      replicasAfter "scale-down" n = if n = 0 then n else n - 1) := by
  have hne : ¬ ("scale-down" = "scale-up") := by decide
  refine ⟨?_, ?_, ?_, ?_, ?_⟩
  · intro n h0 h1
    simp only [replicasAfter, adjustReplicas, hne, if_true, if_false, Option.getD_some, wrapInt]
    unfold maxInt at h1
    split_ifs with h
    · simp only [Option.getD_none]; omega
    · simp only [Option.getD_some]; omega
  · intro n h0 h1
    simp only [replicasAfter, adjustReplicas, hne, if_true, if_false, wrapInt]
    unfold maxInt at h1
    have : ¬ n = 0 := by omega
    simp only [this, if_false, Option.getD_some]
    omega
  · decide
  · intro n h0 h1
    simp only [replicasAfter, adjustReplicas, if_true, Option.getD_some, wrapInt]
    unfold maxInt at h1
    omega
  · intro n h0 h1
    simp only [replicasAfter, adjustReplicas, hne, if_false, wrapInt]
    unfold maxInt at h1
    split_ifs with h
    · simp
    · simp only [Option.getD_some]; omega

/-! ## URLs and headers -/

/-- C7. For each of the two base URLs of `main` and every namespace and resource name,
the URLs are plain concatenations, nothing being escaped: the deployment list is
base + "/oapi/v1/namespaces/" + namespace + "/deploymentconfigs", the scale URL is that
+ "/" + name + "/scale", the pod list is base + "/api/v1/namespaces/" + namespace +
"/pods" and the URL of a pod is that + "/" + pod name. -/
theorem request_urls (prod : Bool) (ns deploymentName podName : String) :
    (baseURLOf prod = "https://ose.mlcinsurance.com.au:8443" ∨
      baseURLOf prod = "https://osenp.mlcinsurance.com.au:8443") ∧
    deploymentsURL (baseURLOf prod) ns =
      baseURLOf prod ++ "/oapi/v1/namespaces/" ++ ns ++ "/deploymentconfigs" ∧
    scaleURL (baseURLOf prod) ns deploymentName =
      deploymentsURL (baseURLOf prod) ns ++ "/" ++ deploymentName ++ "/scale" ∧
    podsURL (baseURLOf prod) ns = baseURLOf prod ++ "/api/v1/namespaces/" ++ ns ++ "/pods" ∧
    deleteURL (podsURL (baseURLOf prod) ns) podName =
      podsURL (baseURLOf prod) ns ++ "/" ++ podName := by
  cases prod
  · refine ⟨Or.inr rfl, ?_, ?_, ?_, rfl⟩ <;> apply String.ext <;>
      simp [deploymentsURL, scaleURL, podsURL, baseURLOf, Sprintf, sprintfAux, formatVerb,
        formatExtra]
  · refine ⟨Or.inl rfl, ?_, ?_, ?_, rfl⟩ <;> apply String.ext <;>
      simp [deploymentsURL, scaleURL, podsURL, baseURLOf, Sprintf, sprintfAux, formatVerb,
        formatExtra]

/-- C6. Every request of a run of `main` (the list `GET`, each scale `GET`, each `PUT`,
each `DELETE`) carries the one header `Authorization: Bearer <token>`, the token being
the output of `oc whoami -t` without its leading and trailing white space: the output
is white space, then the token, then white space, and the token neither starts nor
ends with white space.  When `oc` fails no request is issued. -/
theorem requests_carry_bearer_token (w : World) (out : String) (prod : Bool)
    (argsParse : Command) :
    (∀ q ∈ (main w (some out) prod argsParse).trace,
      q.header = [("Authorization", "Bearer " ++ TrimSpace out)]) ∧
    (∃ pre suf : List Char, out.data = pre ++ (TrimSpace out).data ++ suf ∧
      (∀ c ∈ pre, isSpace c = true) ∧ (∀ c ∈ suf, isSpace c = true) ∧
      (∀ c, (TrimSpace out).data.head? = some c → isSpace c = false) ∧
      (∀ c, (TrimSpace out).data.getLast? = some c → isSpace c = false)) ∧
    (main w none prod argsParse).trace = [] := by
  refine ⟨?_, ?_, rfl⟩
  · exact main_forall (fun q => q.header = [("Authorization", "Bearer " ++ TrimSpace out)])
      w out prod argsParse (fun _ _ _ => rfl)
  · exact trim_spec isSpace out.data

/-! ## Restarting pods -/

/-- C3, as the code has it.  When the list request of `restartOldPods` is answered (no
error, status other than 401) and the server answers every request with a readable
body, the requests issued are the list `GET` followed by one `DELETE` per pod of the
decoded list that passes the age test `diff > thresholdHours` at its turn, in list
order.  With the age of a pod the current time minus its start time, in nanoseconds:
for a threshold from -85 to 85 days a pod passes the test exactly when its age is
strictly greater than `threshold` days; for a threshold of at least -106751 days a pod
aged at most `threshold` days, so one aged exactly `threshold` days, does not pass; for
a threshold of at most 106751 days a pod aged `threshold` days and 2000 nanoseconds or
more passes; for a threshold of 106752 days or more no pod passes, and for one of
-106752 days or less every pod does (`Sub` saturates at about 292 years). -/
theorem restartOldPods_deletes_old (w : World) (hw : w.Responsive) (ns token : String)
    (threshold : Int) (baseURL : String) (resp : Response)
    (hlist : w.send []
      ⟨"GET", podsURL baseURL ns, [("Authorization", "Bearer " ++ token)], none⟩ =
        ⟨some resp, false⟩)
    (h401 : resp.StatusCode ≠ 401) :
    (restartOldPods w ns token threshold baseURL).trace =
      ⟨"GET", podsURL baseURL ns, [("Authorization", "Bearer " ++ token)], none⟩ ::
        ((resp.Body.podList.value.Items.enumFrom 0).filter
          fun jp => isOld (w.now jp.1) jp.2.Status.StartTime threshold).map
          (fun jp => ⟨"DELETE", deleteURL (podsURL baseURL ns) jp.2.Metadata.Name,
            [("Authorization", "Bearer " ++ token)], none⟩) ∧
    (∀ now start : Time, -85 ≤ threshold → threshold ≤ 85 →
      (isOld now start threshold = true ↔ threshold * 24 * Hour < now - start)) ∧
    (∀ now start : Time, -106751 ≤ threshold → now - start ≤ threshold * 24 * Hour →
      isOld now start threshold = false) ∧
    (∀ now start : Time, threshold ≤ 106751 →
      threshold * 24 * Hour + 2000 ≤ now - start → isOld now start threshold = true) ∧
    (∀ now start : Time, 106752 ≤ threshold → isOld now start threshold = false) ∧
    (∀ now start : Time, threshold ≤ -106752 → isOld now start threshold = true) := by
  refine ⟨?_, ?_, ?_, ?_, ?_, ?_⟩
  · rw [restartOldPods_trace w hw ns token threshold baseURL resp hlist h401, oldPods,
      List.map_map]
    rfl
  · intro now start h1 h2
    exact isOld_exact now start threshold h1 h2
  · intro now start h1 h
    exact isOld_false_of_le now start threshold h1 h
  · intro now start h1 h
    exact isOld_of_two_micro now start threshold h1 h
  · intro now start h1
    exact isOld_false_of_large now start threshold h1
  · intro now start h1
    exact isOld_true_of_small now start threshold h1

/-- Witness of C3: two pods, started 4 days and 1 day ago, and the threshold 3; the
first is deleted, the second is not. -/
theorem restartOldPods_deletes_old_witness :
    (constWorld (bodyOf [] 0 [⟨⟨"p"⟩, ⟨0⟩⟩, ⟨⟨"q"⟩, ⟨3 * 24 * Hour⟩⟩] false)
      (4 * 24 * Hour)).Responsive ∧
    (isOld (4 * 24 * Hour) 0 3 = true ↔ 3 * 24 * Hour < 4 * 24 * Hour - 0) ∧
    (isOld (4 * 24 * Hour) (3 * 24 * Hour) 3 = true ↔
      3 * 24 * Hour < 4 * 24 * Hour - 3 * 24 * Hour) ∧
    (restartOldPods
      (constWorld (bodyOf [] 0 [⟨⟨"p"⟩, ⟨0⟩⟩, ⟨⟨"q"⟩, ⟨3 * 24 * Hour⟩⟩] false) (4 * 24 * Hour))
      "ns" "tok" 3 "https://osenp.mlcinsurance.com.au:8443").trace.map
      (fun q => (q.method, q.url, q.header, q.body.map fun s => s.Spec.Replicas)) =
      [("GET", "https://osenp.mlcinsurance.com.au:8443/api/v1/namespaces/ns/pods",
          [("Authorization", "Bearer tok")], none),
        ("DELETE", "https://osenp.mlcinsurance.com.au:8443/api/v1/namespaces/ns/pods/p",
          [("Authorization", "Bearer tok")], none)] :=
  ⟨constWorld_responsive _ _ _ _ _,
    (restartOldPods_deletes_old
      (constWorld (bodyOf [] 0 [⟨⟨"p"⟩, ⟨0⟩⟩, ⟨⟨"q"⟩, ⟨3 * 24 * Hour⟩⟩] false) (4 * 24 * Hour))
      (constWorld_responsive _ _ _ _ _) "ns" "tok" 3
      "https://osenp.mlcinsurance.com.au:8443" _ rfl (by decide)).2.1 (4 * 24 * Hour) 0
      (by decide) (by decide),
    (restartOldPods_deletes_old
      (constWorld (bodyOf [] 0 [⟨⟨"p"⟩, ⟨0⟩⟩, ⟨⟨"q"⟩, ⟨3 * 24 * Hour⟩⟩] false) (4 * 24 * Hour))
      (constWorld_responsive _ _ _ _ _) "ns" "tok" 3
      "https://osenp.mlcinsurance.com.au:8443" _ rfl (by decide)).2.1 (4 * 24 * Hour)
      (3 * 24 * Hour) (by decide) (by decide),
    by decide⟩

/-- Counterexample to C3.  With the threshold 200, a pod aged 200 days and one
nanosecond is not deleted although its age is strictly greater than 200 days: in
float64 its age in hours is 4800, which is not greater than 200 * 24. -/
theorem pod_one_nanosecond_past_threshold_is_kept :
    (200 * 24 * Hour : Int) < (200 * 24 * Hour + 1) - 0 ∧
    (restartOldPods (constWorld (bodyOf [] 0 [⟨⟨"p"⟩, ⟨0⟩⟩] false) (200 * 24 * Hour + 1))
        "ns" "tok" 200 "https://osenp.mlcinsurance.com.au:8443").trace.map
      (fun q => (q.method, q.url)) =
      [("GET", "https://osenp.mlcinsurance.com.au:8443/api/v1/namespaces/ns/pods")] ∧
    (restartOldPods (constWorld (bodyOf [] 0 [⟨⟨"p"⟩, ⟨0⟩⟩] false) (200 * 24 * Hour + 1))
        "ns" "tok" 200 "https://osenp.mlcinsurance.com.au:8443").out =
      [Msg.noneOlder "ns" 200] := by
  refine ⟨?_, ?_, ?_⟩ <;> decide

/-- C9. When the list request of `restartOldPods` is answered with a non-empty pod list
and the server answers every request with a readable body, the function returns, the
number of `DELETE` requests issued is the number of pods of the list that pass the age
test, and the last message printed is "None of the pods ... are older" when that
number is 0 and "Successfully restarted" with that number otherwise; neither message
is printed in the other case. -/
theorem restartOldPods_reports_count (w : World) (hw : w.Responsive) (ns token : String)
    (threshold : Int) (baseURL : String) (resp : Response)
    (hlist : w.send [] (newRequest "GET" (podsURL baseURL ns) token none) = ⟨some resp, false⟩)
    (h401 : resp.StatusCode ≠ 401) (hne : resp.Body.podList.value.Items ≠ []) :
    (restartOldPods w ns token threshold baseURL).exit = Exit.returned ∧
    ((restartOldPods w ns token threshold baseURL).trace.filter
        (fun q => q.method = "DELETE")).length =
      (oldPods w threshold 0 resp.Body.podList.value.Items).length ∧
    (restartOldPods w ns token threshold baseURL).out =
      decodeMsgs resp.Body.podList.err ++
        ((oldPods w threshold 0 resp.Body.podList.value.Items).map
          (fun p => Msg.restartingPod p.Metadata.Name) ++
        [if (oldPods w threshold 0 resp.Body.podList.value.Items).length = 0
          then Msg.noneOlder ns threshold
          else Msg.restarted (oldPods w threshold 0 resp.Body.podList.value.Items).length ns]) ∧
    (Msg.noneOlder ns threshold ∈ (restartOldPods w ns token threshold baseURL).out ↔
      (oldPods w threshold 0 resp.Body.podList.value.Items).length = 0) ∧
    (∀ c : Int, Msg.restarted c ns ∈ (restartOldPods w ns token threshold baseURL).out ↔
      (oldPods w threshold 0 resp.Body.podList.value.Items).length ≠ 0 ∧
        c = (oldPods w threshold 0 resp.Body.podList.value.Items).length) := by
  have hlen : ¬ resp.Body.podList.value.Items.length = 0 := by
    intro h; exact hne (List.length_eq_zero.1 h)
  rw [restartOldPods_eq w hw ns token threshold baseURL resp hlist h401, if_neg hlen]
  have hd : ¬ ("GET" = "DELETE") := by decide
  refine ⟨rfl, ?_, rfl, ?_, ?_⟩
  · simp only [List.filter_cons, newRequest, hd, decide_False, Bool.false_eq_true, if_false]
    rw [List.filter_eq_self.2]
    · simp
    · intro q hq
      obtain ⟨p, _, rfl⟩ := List.mem_map.1 hq
      simp [deleteRequest, newRequest]
  · simp only [decodeMsgs, List.mem_append, List.mem_map, List.mem_singleton]
    constructor
    · rintro (h | ⟨p, _, h⟩ | h)
      · split at h <;> simp at h
      · simp at h
      · split at h
        · assumption
        · simp at h
    · intro h
      right; right
      simp [h]
  · intro c
    simp only [decodeMsgs, List.mem_append, List.mem_map, List.mem_singleton]
    constructor
    · rintro (h | ⟨p, _, h⟩ | h)
      · split at h <;> simp at h
      · simp at h
      · split at h
        · simp at h
        · rename_i h0
          simp only [Msg.restarted.injEq, and_true] at h
          exact ⟨h0, h⟩
    · rintro ⟨h0, rfl⟩
      right; right
      simp [h0]

/-- Witness of C9: two pods, started 4 days and 1 day ago, and the threshold 3. -/
theorem restartOldPods_reports_count_witness :
    (constWorld (bodyOf [] 0 [⟨⟨"p"⟩, ⟨0⟩⟩, ⟨⟨"q"⟩, ⟨3 * 24 * Hour⟩⟩] false)
      (4 * 24 * Hour)).Responsive ∧
    (restartOldPods
      (constWorld (bodyOf [] 0 [⟨⟨"p"⟩, ⟨0⟩⟩, ⟨⟨"q"⟩, ⟨3 * 24 * Hour⟩⟩] false) (4 * 24 * Hour))
      "ns" "tok" 3 "https://osenp.mlcinsurance.com.au:8443").exit = Exit.returned :=
  ⟨constWorld_responsive _ _ _ _ _,
    (restartOldPods_reports_count _ (constWorld_responsive _ _ _ _ _) "ns" "tok" 3
      "https://osenp.mlcinsurance.com.au:8443" _ rfl (by decide) (by simp [bodyOf])).1⟩

/-! ## Failures -/

/-- C4, as the code has it.  In `getDeployments`, and likewise in `restartOldPods`,
when the list request fails by an error of `client.Do`, a nil response, the status 401
or a body that cannot be read, the function prints a message and the process exits with
status 1, the list request being the only request issued: no `PUT` and no `DELETE`. -/
theorem list_failure_exits (w : World) (ns token baseURL : String) :
    (∀ command : String, w.validURL (deploymentsURL baseURL ns) = true →
      ListFails (w.send []
        ⟨"GET", deploymentsURL baseURL ns, [("Authorization", "Bearer " ++ token)], none⟩) →
      (getDeployments w ns token command baseURL).trace =
          [⟨"GET", deploymentsURL baseURL ns, [("Authorization", "Bearer " ++ token)],
            none⟩] ∧
        (getDeployments w ns token command baseURL).exit = Exit.exit1 ∧
        (getDeployments w ns token command baseURL).out ≠ []) ∧
    (∀ threshold : Int, w.validURL (podsURL baseURL ns) = true →
      ListFails (w.send []
        ⟨"GET", podsURL baseURL ns, [("Authorization", "Bearer " ++ token)], none⟩) →
      (restartOldPods w ns token threshold baseURL).trace =
          [⟨"GET", podsURL baseURL ns, [("Authorization", "Bearer " ++ token)], none⟩] ∧
        (restartOldPods w ns token threshold baseURL).exit = Exit.exit1 ∧
        (restartOldPods w ns token threshold baseURL).out ≠ []) :=
  ⟨fun command hvalid hfail => getDeployments_list_fails w ns token command baseURL hvalid hfail,
    fun threshold hvalid hfail =>
      restartOldPods_list_fails w ns token threshold baseURL hvalid hfail⟩

/-- Witness of C4: a server that answers the list of pods and answers the list of
deployments with the status 401; `getDeployments` exits after its list request. -/
theorem list_failure_exits_witness :
    ListFails ((pickyWorld (bodyOf ["a"] 2 [] false)).send []
      ⟨"GET", deploymentsURL "https://osenp.mlcinsurance.com.au:8443" "ns",
        [("Authorization", "Bearer tok")], none⟩) ∧
    (getDeployments (pickyWorld (bodyOf ["a"] 2 [] false)) "ns" "tok" "scale-up"
      "https://osenp.mlcinsurance.com.au:8443").trace.map (fun q => (q.method, q.url)) =
      [("GET",
        "https://osenp.mlcinsurance.com.au:8443/oapi/v1/namespaces/ns/deploymentconfigs")] ∧
    (getDeployments (pickyWorld (bodyOf ["a"] 2 [] false)) "ns" "tok" "scale-up"
      "https://osenp.mlcinsurance.com.au:8443").exit = Exit.exit1 ∧
    (restartOldPods deadWorld "ns" "tok" 3
      "https://osenp.mlcinsurance.com.au:8443").exit = Exit.exit1 :=
  ⟨Or.inr (Or.inr ⟨_, rfl, Or.inl (by decide)⟩), by decide,
    ((list_failure_exits (pickyWorld (bodyOf ["a"] 2 [] false)) "ns" "tok"
      "https://osenp.mlcinsurance.com.au:8443").1 "scale-up" rfl
      (Or.inr (Or.inr ⟨_, rfl, Or.inl (by decide)⟩))).2.1,
    ((list_failure_exits deadWorld "ns" "tok" "https://osenp.mlcinsurance.com.au:8443").2 3 rfl
      (Or.inl rfl)).2.1⟩

/-- Counterexample to C4.  The list payload decodes with an error (say a field of the
wrong JSON type) and yet holds the deployment "a", respectively the pod "p" started
four days ago: `getDeployments` goes on to the scale `GET` and the `PUT`, and
`restartOldPods` with the threshold 3 goes on to the `DELETE`; both return. -/
theorem list_decode_error_goes_on :
    (bodyOf ["a"] 2 [⟨⟨"p"⟩, ⟨0⟩⟩] true).deploymentList.err = true ∧
    (bodyOf ["a"] 2 [⟨⟨"p"⟩, ⟨0⟩⟩] true).podList.err = true ∧
    (getDeployments (constWorld (bodyOf ["a"] 2 [⟨⟨"p"⟩, ⟨0⟩⟩] true) (4 * 24 * Hour))
        "ns" "tok" "scale-up" "https://osenp.mlcinsurance.com.au:8443").trace.map
      (fun q => (q.method, q.url, q.body.map fun s => s.Spec.Replicas)) =
      [("GET", "https://osenp.mlcinsurance.com.au:8443/oapi/v1/namespaces/ns/deploymentconfigs",
          none),
        ("GET",
          "https://osenp.mlcinsurance.com.au:8443/oapi/v1/namespaces/ns/deploymentconfigs/a/scale",
          none),
        ("PUT",
          "https://osenp.mlcinsurance.com.au:8443/oapi/v1/namespaces/ns/deploymentconfigs/a/scale",
          some 3)] ∧
    (getDeployments (constWorld (bodyOf ["a"] 2 [⟨⟨"p"⟩, ⟨0⟩⟩] true) (4 * 24 * Hour))
        "ns" "tok" "scale-up" "https://osenp.mlcinsurance.com.au:8443").exit = Exit.returned ∧
    (restartOldPods (constWorld (bodyOf ["a"] 2 [⟨⟨"p"⟩, ⟨0⟩⟩] true) (4 * 24 * Hour))
        "ns" "tok" 3 "https://osenp.mlcinsurance.com.au:8443").trace.map
      (fun q => (q.method, q.url)) =
      [("GET", "https://osenp.mlcinsurance.com.au:8443/api/v1/namespaces/ns/pods"),
        ("DELETE", "https://osenp.mlcinsurance.com.au:8443/api/v1/namespaces/ns/pods/p")] ∧
    (restartOldPods (constWorld (bodyOf ["a"] 2 [⟨⟨"p"⟩, ⟨0⟩⟩] true) (4 * 24 * Hour))
        "ns" "tok" 3 "https://osenp.mlcinsurance.com.au:8443").exit = Exit.returned := by
  refine ⟨rfl, rfl, ?_, ?_, ?_, ?_⟩ <;> decide

/-- C5, as the code has it.  In `scalePods`, for either command, whenever the `GET` of
a deployment's scale resource gets a nil response or a body that cannot be read, that
`GET` is the last request of the run, so no `PUT` is issued for that deployment, and
`scalePods` does not return. -/
theorem scalePods_failed_get (w : World) (hist : List Request) (deployNames : List String)
    (ns token command baseURL : String) (k : Nat) (req : Request)
    (hreq : (scalePods w hist deployNames ns token command baseURL).trace[k]? = some req)
    (hget : req.method = "GET")
    (hfail :
      (w.send (hist ++ (scalePods w hist deployNames ns token command baseURL).trace.take k)
        req).resp = none ∨
      ∃ resp,
        (w.send (hist ++ (scalePods w hist deployNames ns token command baseURL).trace.take k)
          req).resp = some resp ∧ resp.Body.readErr = true) :
    (scalePods w hist deployNames ns token command baseURL).trace.length = k + 1 ∧
    (scalePods w hist deployNames ns token command baseURL).exit ≠ Exit.returned := by
  have e : (scalePods w hist deployNames ns token command baseURL).trace =
      (scalePodsLoop w ns token command baseURL hist deployNames).trace := by
    simp [scalePods, Run.after_trace]
  have e2 : (scalePods w hist deployNames ns token command baseURL).exit =
      (scalePodsLoop w ns token command baseURL hist deployNames).exit := by
    simp [scalePods, Run.after_exit]
  rw [e] at hreq hfail ⊢
  rw [e2]
  exact scalePodsLoop_failed_get w ns token command baseURL deployNames hist k req hreq hget hfail

/-- Witness of C5: a server that cannot be reached, and two deployments. -/
theorem scalePods_failed_get_witness :
    (scalePods deadWorld [] ["a", "b"] "ns" "tok" "scale-down"
      "https://osenp.mlcinsurance.com.au:8443").trace.length = 0 + 1 ∧
    (scalePods deadWorld [] ["a", "b"] "ns" "tok" "scale-down"
      "https://osenp.mlcinsurance.com.au:8443").exit ≠ Exit.returned :=
  scalePods_failed_get deadWorld [] ["a", "b"] "ns" "tok" "scale-down"
    "https://osenp.mlcinsurance.com.au:8443" 0
    (newRequest "GET" (scaleURL "https://osenp.mlcinsurance.com.au:8443" "ns" "a") "tok" none)
    (by decide) rfl (Or.inl rfl)

/-- Counterexample to C5.  The body of the scale `GET` decodes with an error, leaving
the scale resource with 0 replicas: with "scale-up" the `PUT` is issued all the same,
with 1 replica, and `scalePods` returns. -/
theorem scale_decode_error_goes_on :
    (bodyOf [] 0 [] true).scale.err = true ∧
    (scalePods (constWorld (bodyOf [] 0 [] true) 0) [] ["a"] "ns" "tok" "scale-up"
        "https://osenp.mlcinsurance.com.au:8443").trace.map
      (fun q => (q.method, q.url, q.body.map fun s => s.Spec.Replicas)) =
      [("GET",
          "https://osenp.mlcinsurance.com.au:8443/oapi/v1/namespaces/ns/deploymentconfigs/a/scale",
          none),
        ("PUT",
          "https://osenp.mlcinsurance.com.au:8443/oapi/v1/namespaces/ns/deploymentconfigs/a/scale",
          some 1)] ∧
    (scalePods (constWorld (bodyOf [] 0 [] true) 0) [] ["a"] "ns" "tok" "scale-up"
        "https://osenp.mlcinsurance.com.au:8443").exit = Exit.returned := by
  refine ⟨rfl, ?_, ?_⟩ <;> decide

/-- With a nil response to the scale `GET`, `scalePods` dereferences it (`resp.Body`)
and the process panics, the `GET` being the only request issued. -/
theorem scalePods_nil_response_panics :
    (scalePods deadWorld [] ["a"] "ns" "tok" "scale-up"
      "https://osenp.mlcinsurance.com.au:8443").exit = Exit.panic ∧
    (scalePods deadWorld [] ["a"] "ns" "tok" "scale-up"
      "https://osenp.mlcinsurance.com.au:8443").trace.map (fun q => q.method) = ["GET"] := by
  constructor <;> decide

/-- C8, as the code has it.  When the list request of `restartOldPods` is answered and
the server answers every request with a readable body, with the age of a pod the
current time minus its start time: for a threshold from -85 to 85 days every pod of the
list older than `threshold` days is deleted; for a threshold of at most 106751 days
every pod aged `threshold` days and 2000 nanoseconds or more is deleted; so for a
threshold of at most 3 every pod older than 3 days is deleted.  For a threshold of at
least -106751 days no `DELETE` is issued when every pod is aged at most `threshold`
days, and none at all for a threshold of 106752 days or more. -/
theorem restartOldPods_deletes_past_threshold (w : World) (hw : w.Responsive)
    (ns token : String) (threshold : Int) (baseURL : String) (resp : Response)
    (hlist : w.send []
      ⟨"GET", podsURL baseURL ns, [("Authorization", "Bearer " ++ token)], none⟩ =
        ⟨some resp, false⟩)
    (h401 : resp.StatusCode ≠ 401) :
    (∀ j pod, resp.Body.podList.value.Items[j]? = some pod →
      -85 ≤ threshold → threshold ≤ 85 →
      threshold * 24 * Hour < w.now j - pod.Status.StartTime →
      (⟨"DELETE", deleteURL (podsURL baseURL ns) pod.Metadata.Name,
          [("Authorization", "Bearer " ++ token)], none⟩ : Request) ∈
        (restartOldPods w ns token threshold baseURL).trace) ∧
    (∀ j pod, resp.Body.podList.value.Items[j]? = some pod →
      threshold ≤ 106751 →
      threshold * 24 * Hour + 2000 ≤ w.now j - pod.Status.StartTime →
      (⟨"DELETE", deleteURL (podsURL baseURL ns) pod.Metadata.Name,
          [("Authorization", "Bearer " ++ token)], none⟩ : Request) ∈
        (restartOldPods w ns token threshold baseURL).trace) ∧
    (∀ j pod, resp.Body.podList.value.Items[j]? = some pod →
      threshold ≤ 3 →
      3 * 24 * Hour < w.now j - pod.Status.StartTime →
      (⟨"DELETE", deleteURL (podsURL baseURL ns) pod.Metadata.Name,
          [("Authorization", "Bearer " ++ token)], none⟩ : Request) ∈
        (restartOldPods w ns token threshold baseURL).trace) ∧
    (-106751 ≤ threshold →
      (∀ j pod, resp.Body.podList.value.Items[j]? = some pod →
        w.now j - pod.Status.StartTime ≤ threshold * 24 * Hour) →
      (restartOldPods w ns token threshold baseURL).trace =
        [⟨"GET", podsURL baseURL ns, [("Authorization", "Bearer " ++ token)], none⟩]) ∧
    (106752 ≤ threshold →
      (restartOldPods w ns token threshold baseURL).trace =
        [⟨"GET", podsURL baseURL ns, [("Authorization", "Bearer " ++ token)], none⟩]) := by
  have hmem : ∀ j pod, resp.Body.podList.value.Items[j]? = some pod →
      isOld (w.now j) pod.Status.StartTime threshold = true →
      (⟨"DELETE", deleteURL (podsURL baseURL ns) pod.Metadata.Name,
          [("Authorization", "Bearer " ++ token)], none⟩ : Request) ∈
        (restartOldPods w ns token threshold baseURL).trace := by
    intro j pod hj hold
    rw [restartOldPods_trace w hw ns token threshold baseURL resp hlist h401]
    apply List.mem_cons_of_mem
    apply List.mem_map_of_mem (deleteRequest (podsURL baseURL ns) token)
    apply mem_oldPods w threshold _ 0 j pod hj
    rw [Nat.zero_add]
    exact hold
  have hnone : (∀ j pod, resp.Body.podList.value.Items[j]? = some pod →
      isOld (w.now j) pod.Status.StartTime threshold = false) →
      (restartOldPods w ns token threshold baseURL).trace =
        [⟨"GET", podsURL baseURL ns, [("Authorization", "Bearer " ++ token)], none⟩] := by
    intro hall
    rw [restartOldPods_trace w hw ns token threshold baseURL resp hlist h401,
      oldPods_eq_nil w threshold _ 0]
    · rfl
    · intro j pod hj
      rw [Nat.zero_add]
      exact hall j pod hj
  refine ⟨?_, ?_, ?_, ?_, ?_⟩
  · intro j pod hj h1 h2 hage
    exact hmem j pod hj ((isOld_exact _ _ threshold h1 h2).2 hage)
  · intro j pod hj h1 hage
    exact hmem j pod hj (isOld_of_two_micro _ _ threshold h1 hage)
  · intro j pod hj h1 hage
    exact hmem j pod hj (isOld_of_older_than_three _ _ threshold h1 hage)
  · intro h1 hall
    exact hnone fun j pod hj => isOld_false_of_le _ _ threshold h1 (hall j pod hj)
  · intro h1
    exact hnone fun j pod _ => isOld_false_of_large _ _ threshold h1

/-- Witness of C8: a pod started three days and one nanosecond ago and the threshold
3; the pod is deleted. -/
theorem restartOldPods_deletes_past_threshold_witness :
    (constWorld (bodyOf [] 0 [⟨⟨"p"⟩, ⟨0⟩⟩] false) (3 * 24 * Hour + 1)).Responsive ∧
    (⟨"DELETE", "https://osenp.mlcinsurance.com.au:8443/api/v1/namespaces/ns/pods/p",
        [("Authorization", "Bearer tok")], none⟩ : Request) ∈
      (restartOldPods (constWorld (bodyOf [] 0 [⟨⟨"p"⟩, ⟨0⟩⟩] false) (3 * 24 * Hour + 1))
        "ns" "tok" 3 "https://osenp.mlcinsurance.com.au:8443").trace :=
  ⟨constWorld_responsive _ _ _ _ _,
    (restartOldPods_deletes_past_threshold
      (constWorld (bodyOf [] 0 [⟨⟨"p"⟩, ⟨0⟩⟩] false) (3 * 24 * Hour + 1))
      (constWorld_responsive _ _ _ _ _) "ns" "tok" 3
      "https://osenp.mlcinsurance.com.au:8443" _ rfl (by decide)).1 0 ⟨⟨"p"⟩, ⟨0⟩⟩ rfl
      (by decide) (by decide) (by decide)⟩

/-- Counterexample to C8.  With the threshold 5, a pod started four days ago, older
than 3 days, is not deleted: the list `GET` is the only request.  With the threshold
100000, a pod aged 100000 days and 800 nanoseconds is not deleted either, and with the
threshold 110000 neither is a pod aged 300000 days. -/
theorem threshold_five_keeps_four_day_pod :
    3 * 24 * Hour < Time.Sub (4 * 24 * Hour) 0 ∧
    (restartOldPods (constWorld (bodyOf [] 0 [⟨⟨"p"⟩, ⟨0⟩⟩] false) (4 * 24 * Hour))
        "ns" "tok" 5 "https://osenp.mlcinsurance.com.au:8443").trace.map
      (fun q => (q.method, q.url)) =
      [("GET", "https://osenp.mlcinsurance.com.au:8443/api/v1/namespaces/ns/pods")] ∧
    (restartOldPods (constWorld (bodyOf [] 0 [⟨⟨"p"⟩, ⟨0⟩⟩] false) (4 * 24 * Hour))
        "ns" "tok" 5 "https://osenp.mlcinsurance.com.au:8443").out =
      [Msg.noneOlder "ns" 5] ∧
    (restartOldPods (constWorld (bodyOf [] 0 [⟨⟨"p"⟩, ⟨0⟩⟩] false) (100000 * 24 * Hour + 800))
        "ns" "tok" 100000 "https://osenp.mlcinsurance.com.au:8443").trace.map
      (fun q => (q.method, q.url)) =
      [("GET", "https://osenp.mlcinsurance.com.au:8443/api/v1/namespaces/ns/pods")] ∧
    (restartOldPods (constWorld (bodyOf [] 0 [⟨⟨"p"⟩, ⟨0⟩⟩] false) (300000 * 24 * Hour))
        "ns" "tok" 110000 "https://osenp.mlcinsurance.com.au:8443").trace.map
      (fun q => (q.method, q.url)) =
      [("GET", "https://osenp.mlcinsurance.com.au:8443/api/v1/namespaces/ns/pods")] := by
  refine ⟨?_, ?_, ?_, ?_, ?_⟩ <;> decide

end OcUtils
